import Mathlib

/-!
Verification of the MapPack sync tool (src/MapPackSyncTool/MapPackSyncTool.cpp)
against its natural-language specification.

This file is a shallow embedding of the parts of the program the claims are
about: path normalization, manifest parsing and validation, the per-file
download/verify/replace pipeline, the sync / uninstall orchestrators, the
WinHTTP fetch wrappers, and the self-update flow.  C++ byte strings (and the
wide strings of the update path) are modelled as `List Char`; fallible
functions return `Except` or `Option`; OS and network interactions are
modelled as explicit environment records whose fields stand for the outcomes
of the corresponding system calls.
-/

namespace MapPackSync

/-- C++ `std::string` / `std::wstring` are modelled as lists of characters. -/
abbrev Str := List Char

/-- ASCII apostrophe (used inside some of the program's message literals). -/
def sq : Char := Char.ofNat 39

/-- ASCII left brace (used inside some of the program's message literals). -/
def lbr : Char := Char.ofNat 123

/-- ASCII right brace. -/
def rbr : Char := Char.ofNat 125

/-- The NUL character. -/
def nulChar : Char := Char.ofNat 0

/-- `StartsWith` (MapPackSyncTool.cpp, line 1223): byte-wise prefix test. -/
def startsWith : Str → Str → Bool
  | _, [] => true
  | [], _ :: _ => false
  | c :: s, d :: p => c = d && startsWith s p

/-- ASCII lower-casing of one character, as done inside `EqualIcaseAscii`
and `ToLowerAscii` (lines 1227, 2500). -/
def lowerAscii (c : Char) : Char :=
  if 'A' ≤ c && c ≤ 'Z' then Char.ofNat (c.toNat - 'A'.toNat + 'a'.toNat) else c

/-- `EqualIcaseAscii` (line 1227): equal length and ASCII-case-insensitive
character-wise equality. -/
def eqIcaseAscii (a b : Str) : Bool :=
  a.length = b.length && (List.zip a b).all fun p => lowerAscii p.1 = lowerAscii p.2

/-- Decimal digit test (ASCII). -/
def isDigitCh (c : Char) : Bool := '0' ≤ c && c ≤ '9'

/-- Hex digit test, both cases, as used by `IsHex64` (line 1780). -/
def isHexDigitCh (c : Char) : Bool :=
  isDigitCh c || ('a' ≤ c && c ≤ 'f') || ('A' ≤ c && c ≤ 'F')

/-- `IsHex64` (lines 1780-1791): exactly 64 hex characters, either case. -/
def isHex64 (s : Str) : Bool := s.length = 64 && s.all isHexDigitCh

/-- Substring test (`std::string::find(needle) != npos`). -/
def hasSubstr (needle : Str) : Str → Bool
  | [] => startsWith [] needle
  | c :: rest => startsWith (c :: rest) needle || hasSubstr needle rest

/-- Lexicographic `<` on byte strings (`std::string::operator<`), as used by
the `std::sort` comparator in `ValidateAndNormalizeManifest` (line 2034). -/
def strLt : Str → Str → Bool
  | [], [] => false
  | [], _ :: _ => true
  | _ :: _, [] => false
  | a :: s, b :: t => if a.toNat < b.toNat then true
      else if b.toNat < a.toNat then false else strLt s t

-- --------------------------------------------------
-- Path normalization (lines 1240-1448)
-- --------------------------------------------------

/-- Backslash-to-slash conversion applied character-wise by both normalizers. -/
def bsToSlash (c : Char) : Char := if c = '\\' then '/' else c

/-- Strips leading '/' characters (`while (!s.empty() && s.front() == '/')`). -/
def dropLeadingSlashes : Str → Str
  | '/' :: rest => dropLeadingSlashes rest
  | s => s

/-- Collapses runs of '/' to a single '/', mirroring the `prevSlash` loop of
`NormalizePathGeneric` (lines 1256-1275).  The boolean is the `prevSlash`
state. -/
def collapseSlashes : Bool → Str → Str
  | _, [] => []
  | prevSlash, c :: rest =>
    if c = '/' then
      if prevSlash then collapseSlashes true rest
      else c :: collapseSlashes true rest
    else c :: collapseSlashes false rest

/-- Splitting on a separator character.  This matches the
`find('/', i)` segmentation loops of `NormalizePathGeneric` (lines 1280-1300)
and `NormalizeManifestRelStrict` (lines 1376-1409): the empty string yields
one empty segment and a trailing separator yields a trailing empty segment. -/
def splitOnChar (sep : Char) : Str → List Str
  | [] => [[]]
  | c :: rest =>
    if c = sep then [] :: splitOnChar sep rest
    else
      match splitOnChar sep rest with
      | [] => [[c]]
      | seg :: segs => (c :: seg) :: segs

/-- Joining resolved segments with '/' separators (lines 1301-1307). -/
def joinParts : List Str → Str
  | [] => []
  | [p] => p
  | p :: ps => p ++ '/' :: joinParts ps

/-- Dot-segment resolution of `NormalizePathGeneric` (lines 1277-1300):
empty and "." segments are dropped, ".." pops the last collected part and is
silently ignored when there is nothing to pop. -/
def resolveDotsGeneric (segs : List Str) : List Str :=
  segs.foldl
    (fun parts seg =>
      if seg = [] || seg = ['.'] then parts
      else if seg = ['.', '.'] then parts.dropLast
      else parts ++ [seg])
    []

/-- `NormalizePathGeneric` (lines 1245-1308): '\' → '/', strip leading
slashes, collapse repeated slashes, resolve "." and ".." segments with ".."
clamped at the root. -/
def normalizePathGeneric (input : Str) : Str :=
  joinParts (resolveDotsGeneric
    (splitOnChar '/' (collapseSlashes false (dropLeadingSlashes (input.map bsToSlash)))))

def errNul : Str := ("path contains NUL").toList
def errUnc : Str := ("UNC paths not allowed").toList
def errDrive : Str := ("drive-qualified paths not allowed").toList
def errEscape : Str := ("path attempts to escape root").toList
def errColonSeg : Str := ("path contains ").toList ++ [sq, ':', sq]
def errEmptyRel : Str := ("path resolves to empty").toList
def errDotDotRel : Str := ("path contains ").toList ++ [sq, '.', '.', sq]

/-- The UNC check of `NormalizeManifestRelStrict` (lines 1347-1356): the raw
string begins with a doubled '\' or a doubled '/'. -/
def isUncStart : Str → Bool
  | a :: b :: _ => (a = '\\' && b = '\\') || (a = '/' && b = '/')
  | _ => false

/-- The drive-letter check of `NormalizeManifestRelStrict` (line 1357). -/
def isDriveQualified : Str → Bool
  | a :: ':' :: _ => ('A' ≤ a && a ≤ 'Z') || ('a' ≤ a && a ≤ 'z')
  | _ => false

/-- The strict per-segment resolution loop of `NormalizeManifestRelStrict`
(lines 1373-1409): empty and "." segments are skipped, ".." with no collected
part is a fatal escape, a ':' anywhere in a kept segment is fatal. -/
def strictResolve : List Str → List Str → Except Str (List Str)
  | [], parts => .ok parts
  | seg :: rest, parts =>
    if seg = [] || seg = ['.'] then strictResolve rest parts
    else if seg = ['.', '.'] then
      if parts = [] then .error errEscape
      else strictResolve rest parts.dropLast
    else if seg.contains ':' then .error errColonSeg
    else strictResolve rest (parts ++ [seg])

def pfxOverrideMappack : Str := ("resources_override/mappack/").toList
def pfxOverride : Str := ("resources_override/").toList
def pfxMappack : Str := ("mappack/").toList

/-- The known-prefix stripping of `NormalizeManifestRelStrict`
(lines 1418-1424); note the order p1, "resources_override/", "mappack/". -/
def stripKnownStrict (rel : Str) : Str :=
  if startsWith rel pfxOverrideMappack then rel.drop pfxOverrideMappack.length
  else if startsWith rel pfxOverride then rel.drop pfxOverride.length
  else if startsWith rel pfxMappack then rel.drop pfxMappack.length
  else rel

/-- `NormalizeManifestRelStrict` (lines 1330-1441). -/
def normalizeManifestRelStrict (p : Str) : Except Str Str :=
  if p.contains nulChar then .error errNul
  else if isUncStart p then .error errUnc
  else if isDriveQualified p then .error errDrive
  else
    match strictResolve (splitOnChar '/' (dropLeadingSlashes (p.map bsToSlash))) [] with
    | .error e => .error e
    | .ok parts =>
      let rel := stripKnownStrict (joinParts parts)
      if rel = [] then .error errEmptyRel
      else if hasSubstr ['.', '.'] rel then .error errDotDotRel
      else .ok rel

/-- `MakeDestPath` (lines 1444-1448): `installRoot / "resources_override" /
"mappack" / validatedRelPath`, modelled with generic '/' separators. -/
def makeDestPath (installRoot : Str) (validatedRelPath : Str) : Str :=
  installRoot ++ ("/resources_override/mappack/").toList ++ validatedRelPath

-- --------------------------------------------------
-- Manifest data model and validator (lines 1452-2038)
-- --------------------------------------------------

/-- Raw manifest entry exactly as decoded from JSON (lines 1459-1463). -/
structure ManifestRawEntry where
  path : Str
  sha256 : Str
deriving DecidableEq, Repr

/-- Validated manifest entry (lines 1452-1457). -/
structure ManifestEntry where
  remotePath : Str
  relPath : Str
  sha256 : Str
deriving DecidableEq, Repr

def errFilesEmpty : Str := [sq] ++ ("files").toList ++ [sq] ++ (" array is empty").toList
def errEmptyPath : Str := ("file entry has empty path").toList
def errBadSha : Str := ("invalid sha256 for path: ").toList
def errUnsafePath : Str := ("unsafe path: ").toList
def errDupPath : Str := ("duplicate path in manifest: ").toList

/-- The per-entry loop of `ValidateAndNormalizeManifest` (lines 2000-2032).
`work` is `outWorkList`, `relSet` is `outManifestRelSet` (insertion order is
irrelevant to membership, so the unordered set is modelled as a list). -/
def validateLoop : List ManifestRawEntry → List ManifestEntry → List Str →
    Except Str (List ManifestEntry × List Str)
  | [], work, relSet => .ok (work, relSet)
  | rf :: rest, work, relSet =>
    if rf.path = [] then .error errEmptyPath
    else if !isHex64 rf.sha256 then .error (errBadSha ++ rf.path)
    else
      let remotePath := normalizePathGeneric rf.path
      match normalizeManifestRelStrict remotePath with
      | .error relErr =>
        .error (errUnsafePath ++ (if relErr = [] then rf.path else relErr) ++
          (" (").toList ++ rf.path ++ (")").toList)
      | .ok rel =>
        if relSet.contains rel then .error (errDupPath ++ rel)
        else validateLoop rest (work ++ [⟨remotePath, rel, rf.sha256⟩]) (rel :: relSet)

/-- Insertion step of the sort by `relPath` (`std::sort` with comparator
`a.relPath < b.relPath`, lines 2034-2035; keys are distinct on success, so
the sorted permutation is unique and insertion sort models it exactly). -/
def insertByRel (e : ManifestEntry) : List ManifestEntry → List ManifestEntry
  | [] => [e]
  | f :: fs => if strLt f.relPath e.relPath then f :: insertByRel e fs else e :: f :: fs

/-- Sorting the work list by `relPath`. -/
def sortByRel (l : List ManifestEntry) : List ManifestEntry := l.foldr insertByRel []

/-- `ValidateAndNormalizeManifest` (lines 1982-2038): empty-list check, the
per-entry loop, then the sort.  On failure the caller-visible result carries
only the message (the `_Status` wrapper at line 1969 discards the partial
out-parameters). -/
def validateAndNormalizeManifest (rawFiles : List ManifestRawEntry) :
    Except Str (List ManifestEntry × List Str) :=
  if rawFiles = [] then .error errFilesEmpty
  else
    match validateLoop rawFiles [] [] with
    | .error e => .error e
    | .ok (work, relSet) => .ok (sortByRel work, relSet)

-- --------------------------------------------------
-- JSON manifest parser (lines 1466-1964)
-- --------------------------------------------------

/-- Artificial out-of-fuel message.  The fueled parser functions below bound
recursion with an explicit fuel argument; exhaustion yields this error and
never a success, and the entry points supply fuel exceeding any recursion the
input can drive (every fueled step consumes input), so the fueled functions
agree with the unbounded C++ loops. -/
def errFuel : Str := ("parser fuel exhausted").toList

/-- Whitespace accepted by `SkipWs` (lines 1474-1482). -/
def isJsonWs (c : Char) : Bool := c = ' ' || c = '\t' || c = '\r' || c = '\n'

/-- `SkipWs`. -/
def skipWs (s : Str) : Str := s.dropWhile isJsonWs

/-- `HexNibble` (lines 1484-1490). -/
def hexNibble (c : Char) : Option Nat :=
  let n := c.toNat
  if '0'.toNat ≤ n ∧ n ≤ '9'.toNat then some (n - '0'.toNat)
  else if 'a'.toNat ≤ n ∧ n ≤ 'f'.toNat then some (n - 'a'.toNat + 10)
  else if 'A'.toNat ≤ n ∧ n ≤ 'F'.toNat then some (n - 'A'.toNat + 10)
  else none

/-- `ReadHex4` (lines 1492-1503): four hex digits accumulated by nibble. -/
def readHex4 : Str → Option (Nat × Str)
  | a :: b :: c :: d :: rest =>
    match hexNibble a, hexNibble b, hexNibble c, hexNibble d with
    | some x, some y, some z, some w => some ((((x * 16 + y) * 16 + z) * 16 + w), rest)
    | _, _, _, _ => none
  | _ => none

/-- `AppendUtf8` (lines 1505-1530): minimal UTF-8 encoding; the produced
bytes are modelled as characters with the byte's value. -/
def utf8Bytes (cp : Nat) : Str :=
  if cp ≤ 0x7F then [Char.ofNat cp]
  else if cp ≤ 0x7FF then
    [Char.ofNat (0xC0 ||| ((cp >>> 6) &&& 0x1F)), Char.ofNat (0x80 ||| (cp &&& 0x3F))]
  else if cp ≤ 0xFFFF then
    [Char.ofNat (0xE0 ||| ((cp >>> 12) &&& 0x0F)), Char.ofNat (0x80 ||| ((cp >>> 6) &&& 0x3F)),
      Char.ofNat (0x80 ||| (cp &&& 0x3F))]
  else
    [Char.ofNat (0xF0 ||| ((cp >>> 18) &&& 0x07)), Char.ofNat (0x80 ||| ((cp >>> 12) &&& 0x3F)),
      Char.ofNat (0x80 ||| ((cp >>> 6) &&& 0x3F)), Char.ofNat (0x80 ||| (cp &&& 0x3F))]

def errExpectedString : Str := ("expected string").toList
def errUntermEscape : Str := ("unterminated escape").toList
def errBadU : Str := ("bad \\uXXXX escape").toList
def errBadLowSurrogate : Str := ("bad low surrogate").toList
def errInvalidSurrogatePair : Str := ("invalid surrogate pair").toList
def errMissingLowSurrogate : Str := ("missing low surrogate").toList
def errUnsupportedEscape : Str := ("unsupported escape sequence").toList
def errCtrlInString : Str := ("control character in string").toList
def errUntermString : Str := ("unterminated string").toList

/-- Body loop of `ReadJsonString` (lines 1532-1605).  Each step consumes at
least one input character, so the fuel supplied by `readJsonString` cannot be
exhausted. -/
def readJsonStringLoop : Nat → Str → Str → Except Str (Str × Str)
  | 0, _, _ => .error errFuel
  | _ + 1, [], _ => .error errUntermString
  | fuel + 1, c :: rest, out =>
    if c = '"' then .ok (out, rest)
    else if c = '\\' then
      match rest with
      | [] => .error errUntermEscape
      | e :: rest2 =>
        if e = '"' then readJsonStringLoop fuel rest2 (out ++ ['"'])
        else if e = '\\' then readJsonStringLoop fuel rest2 (out ++ ['\\'])
        else if e = '/' then readJsonStringLoop fuel rest2 (out ++ ['/'])
        else if e = 'b' then readJsonStringLoop fuel rest2 (out ++ ['\x08'])
        else if e = 'f' then readJsonStringLoop fuel rest2 (out ++ ['\x0C'])
        else if e = 'n' then readJsonStringLoop fuel rest2 (out ++ ['\n'])
        else if e = 'r' then readJsonStringLoop fuel rest2 (out ++ ['\r'])
        else if e = 't' then readJsonStringLoop fuel rest2 (out ++ ['\t'])
        else if e = 'u' then
          match readHex4 rest2 with
          | none => .error errBadU
          | some (cp, rest3) =>
            if 0xD800 ≤ cp && cp ≤ 0xDBFF then
              match rest3 with
              | '\\' :: 'u' :: rest4 =>
                match readHex4 rest4 with
                | none => .error errBadLowSurrogate
                | some (lo, rest5) =>
                  if 0xDC00 ≤ lo && lo ≤ 0xDFFF then
                    readJsonStringLoop fuel rest5
                      (out ++ utf8Bytes (0x10000 + (((cp - 0xD800) <<< 10) ||| (lo - 0xDC00))))
                  else .error errInvalidSurrogatePair
              | _ => .error errMissingLowSurrogate
            else readJsonStringLoop fuel rest3 (out ++ utf8Bytes cp)
        else .error errUnsupportedEscape
    else if c.toNat < 0x20 then .error errCtrlInString
    else readJsonStringLoop fuel rest (out ++ [c])

/-- `ReadJsonString` (lines 1532-1605): expects an opening quote and returns
the decoded string plus the remaining input. -/
def readJsonString (s : Str) : Except Str (Str × Str) :=
  match s with
  | '"' :: rest => readJsonStringLoop (rest.length + 1) rest []
  | _ => .error errExpectedString

/-- `SkipJsonNumber` (lines 1614-1640): returns the remaining input on
success, `none` when the number grammar is violated (the C++ version resets
`i` and returns false). -/
def skipJsonNumber (s : Str) : Option Str :=
  let s1 := match s with | '-' :: r => r | _ => s
  match s1 with
  | [] => none
  | c :: r =>
    let intRest :=
      if c = '0' then some r
      else if '1' ≤ c && c ≤ '9' then some (r.dropWhile isDigitCh)
      else none
    match intRest with
    | none => none
    | some s2 =>
      let fracRest :=
        match s2 with
        | '.' :: r2 =>
          match r2 with
          | d :: _ => if isDigitCh d then some (r2.dropWhile isDigitCh) else none
          | [] => none
        | _ => some s2
      match fracRest with
      | none => none
      | some s3 =>
        match s3 with
        | e :: r3 =>
          if e = 'e' || e = 'E' then
            let r4 := match r3 with | '+' :: rr => rr | '-' :: rr => rr | _ => r3
            match r4 with
            | d :: _ => if isDigitCh d then some (r4.dropWhile isDigitCh) else none
            | [] => none
          else some s3
        | [] => some s3

def errTooDeep : Str := ("JSON nesting too deep").toList
def errUnexpectedEnd : Str := ("unexpected end of JSON").toList
def errInvalidLiteral : Str := ("invalid literal").toList
def errInvalidNumber : Str := ("invalid number").toList
def errUnexpectedToken : Str := ("unexpected token").toList
def errExpectedLbk : Str := ("expected ").toList ++ [sq, '[', sq]
def errUntermArray : Str := ("unterminated array").toList
def errCommaOrRbk : Str :=
  ("expected ").toList ++ [sq, ',', sq] ++ (" or ").toList ++ [sq, ']', sq]
def errUntermObject : Str := ("unterminated object").toList
def errColonAfterKey : Str := ("expected ").toList ++ [sq, ':', sq] ++ (" after key").toList
def errCommaOrRbr : Str :=
  ("expected ").toList ++ [sq, ',', sq] ++ (" or ").toList ++ [sq, rbr, sq]

mutual

/-- `SkipJsonValue` (lines 1688-1732), fueled. -/
def skipJsonValue : Nat → Nat → Str → Except Str Str
  | 0, _, _ => .error errFuel
  | fuel + 1, depth, s =>
    if depth > 64 then .error errTooDeep
    else
      match s with
      | [] => .error errUnexpectedEnd
      | c :: _ =>
        if c = '"' then
          match readJsonString s with
          | .error e => .error e
          | .ok (_, rest) => .ok rest
        else if c = lbr then skipJsonObject fuel depth s
        else if c = '[' then skipJsonArray fuel depth s
        else if c = 't' then
          if startsWith s (("true").toList) then .ok (s.drop 4) else .error errInvalidLiteral
        else if c = 'f' then
          if startsWith s (("false").toList) then .ok (s.drop 5) else .error errInvalidLiteral
        else if c = 'n' then
          if startsWith s (("null").toList) then .ok (s.drop 4) else .error errInvalidLiteral
        else if c = '-' || isDigitCh c then
          match skipJsonNumber s with
          | some rest => .ok rest
          | none => .error errInvalidNumber
        else .error errUnexpectedToken

/-- `SkipJsonObject` (lines 1662-1686), fueled. -/
def skipJsonObject : Nat → Nat → Str → Except Str Str
  | 0, _, _ => .error errFuel
  | fuel + 1, depth, s =>
    match s with
    | c :: r =>
      if c = lbr then
        match skipWs r with
        | c2 :: r2 =>
          if c2 = rbr then .ok r2 else skipJsonObjectLoop fuel depth (c2 :: r2)
        | [] => skipJsonObjectLoop fuel depth []
      else .error (("expected ").toList ++ [sq, lbr, sq])
    | [] => .error (("expected ").toList ++ [sq, lbr, sq])

/-- The member loop of `SkipJsonObject`. -/
def skipJsonObjectLoop : Nat → Nat → Str → Except Str Str
  | 0, _, _ => .error errFuel
  | fuel + 1, depth, s =>
    match readJsonString (skipWs s) with
    | .error e => .error e
    | .ok (_, r1) =>
      match skipWs r1 with
      | ':' :: r2 =>
        match skipJsonValue fuel (depth + 1) (skipWs r2) with
        | .error e => .error e
        | .ok r3 =>
          match skipWs r3 with
          | [] => .error errUntermObject
          | ',' :: r4 => skipJsonObjectLoop fuel depth r4
          | c2 :: r4 => if c2 = rbr then .ok r4 else .error errCommaOrRbr
      | _ => .error errColonAfterKey

/-- `SkipJsonArray` (lines 1642-1660), fueled. -/
def skipJsonArray : Nat → Nat → Str → Except Str Str
  | 0, _, _ => .error errFuel
  | fuel + 1, depth, s =>
    match s with
    | c :: r =>
      if c = '[' then
        match skipWs r with
        | c2 :: r2 =>
          if c2 = ']' then .ok r2 else skipJsonArrayLoop fuel depth (c2 :: r2)
        | [] => skipJsonArrayLoop fuel depth []
      else .error errExpectedLbk
    | [] => .error errExpectedLbk

/-- The element loop of `SkipJsonArray`. -/
def skipJsonArrayLoop : Nat → Nat → Str → Except Str Str
  | 0, _, _ => .error errFuel
  | fuel + 1, depth, s =>
    match skipJsonValue fuel (depth + 1) (skipWs s) with
    | .error e => .error e
    | .ok r1 =>
      match skipWs r1 with
      | [] => .error errUntermArray
      | ',' :: r2 => skipJsonArrayLoop fuel depth r2
      | c2 :: r2 => if c2 = ']' then .ok r2 else .error errCommaOrRbk

end

def errTooLarge : Str := ("manifest too large").toList
def errTopNotObject : Str := ("expected top-level object").toList
def errUntermTop : Str := ("unterminated top-level object").toList
def errLbkForFiles : Str := ("expected ").toList ++ [sq, '[', sq] ++ (" for files").toList
def errUntermFilesArray : Str := ("unterminated files array").toList
def errObjInFiles : Str := ("expected object in files array").toList
def errUntermFileObj : Str := ("unterminated file object").toList
def errColonInFileObj : Str :=
  ("expected ").toList ++ [sq, ':', sq] ++ (" in file object").toList
def errCommaOrRbrFile : Str := errCommaOrRbr ++ (" in file object").toList
def errCommaOrRbkFiles : Str := errCommaOrRbk ++ (" in files array").toList
def errCommaOrRbrTop : Str := errCommaOrRbr ++ (" in top-level object").toList
def errMissingFiles : Str :=
  ("missing ").toList ++ [sq] ++ ("files").toList ++ [sq] ++ (" key").toList

/-- The member loop over one `files` element object in `ParseManifestRaw`
(lines 1884-1918).  `pathVal`/`hashVal` carry the last values read for the
`path` and `sha256`/`hash` keys (empty when unset, exactly as in the C++
locals). -/
def parseFileObjLoop : Nat → Str → Str → Str → Except Str ((Str × Str) × Str)
  | 0, _, _, _ => .error errFuel
  | fuel + 1, s, pathVal, hashVal =>
    match skipWs s with
    | [] => .error errUntermFileObj
    | c :: r =>
      if c = rbr then .ok ((pathVal, hashVal), r)
      else
        match readJsonString (c :: r) with
        | .error e => .error e
        | .ok (fkey, r1) =>
          match skipWs r1 with
          | ':' :: r2 =>
            let r2w := skipWs r2
            let step : Except Str (Str × Str × Str) :=
              if fkey = ("path").toList then
                match readJsonString r2w with
                | .error e => .error e
                | .ok (v, r3) => .ok (v, hashVal, r3)
              else if fkey = ("sha256").toList || fkey = ("hash").toList then
                match readJsonString r2w with
                | .error e => .error e
                | .ok (v, r3) => .ok (pathVal, v, r3)
              else
                match skipJsonValue (4 * r2w.length + 16) 0 r2w with
                | .error e => .error e
                | .ok r3 => .ok (pathVal, hashVal, r3)
            match step with
            | .error e => .error e
            | .ok (p2, h2, r3) =>
              match skipWs r3 with
              | [] => .error errUntermFileObj
              | ',' :: r4 => parseFileObjLoop fuel r4 p2 h2
              | c2 :: r4 => if c2 = rbr then .ok ((p2, h2), r4) else .error errCommaOrRbrFile
          | _ => .error errColonInFileObj

/-- The element loop over the `files` array in `ParseManifestRaw`
(lines 1877-1935).  An element is kept only when both decoded fields are
non-empty (line 1920). -/
def parseFilesLoop : Nat → Str → List ManifestRawEntry →
    Except Str (List ManifestRawEntry × Str)
  | 0, _, _ => .error errFuel
  | fuel + 1, s, entries =>
    match skipWs s with
    | [] => .error errUntermFilesArray
    | c :: r =>
      if c = lbr then
        match parseFileObjLoop fuel r [] [] with
        | .error e => .error e
        | .ok ((pathVal, hashVal), r1) =>
          let entries2 :=
            if pathVal ≠ [] && hashVal ≠ [] then entries ++ [⟨pathVal, hashVal⟩] else entries
          match skipWs r1 with
          | [] => .error errUntermFilesArray
          | ',' :: r2 => parseFilesLoop fuel r2 entries2
          | c2 :: r2 => if c2 = ']' then .ok (entries2, r2) else .error errCommaOrRbkFiles
      else .error errObjInFiles

/-- The value dispatch for one top-level key in `ParseManifestRaw`
(lines 1867-1942): the `files` array is parsed element-wise, any other
value is skipped. -/
def parseTopValue (fuel : Nat) (key r2w : Str) (entries : List ManifestRawEntry)
    (foundFiles : Bool) : Except Str (List ManifestRawEntry × Bool × Str) :=
  if key = ("files").toList then
    match r2w with
    | '[' :: r3 =>
      match skipWs r3 with
      | ']' :: r4 => .ok (entries, true, r4)
      | _ =>
        match parseFilesLoop fuel r3 entries with
        | .error e => .error e
        | .ok (entries2, r4) => .ok (entries2, true, r4)
    | _ => .error errLbkForFiles
  else
    match skipJsonValue (4 * r2w.length + 16) 0 r2w with
    | .error e => .error e
    | .ok r3 => .ok (entries, foundFiles, r3)

/-- The key loop over the top-level object in `ParseManifestRaw`
(lines 1854-1962), including the trailing `foundFiles` / empty-list checks
which C++ runs after the loop breaks. -/
def parseTopLoop : Nat → Str → List ManifestRawEntry → Bool →
    Except Str (List ManifestRawEntry)
  | 0, _, _, _ => .error errFuel
  | fuel + 1, s, entries, foundFiles =>
    match skipWs s with
    | [] => .error errUntermTop
    | c :: r =>
      if c = rbr then
        if !foundFiles then .error errMissingFiles
        else if entries = [] then .error errFilesEmpty
        else .ok entries
      else
        match readJsonString (c :: r) with
        | .error e => .error e
        | .ok (key, r1) =>
          match skipWs r1 with
          | ':' :: r2 =>
            match parseTopValue fuel key (skipWs r2) entries foundFiles with
            | .error e => .error e
            | .ok (entries2, ff2, r3) =>
              match skipWs r3 with
              | [] => .error errUntermTop
              | ',' :: r4 => parseTopLoop fuel r4 entries2 ff2
              | c2 :: _ =>
                if c2 = rbr then
                  if !ff2 then .error errMissingFiles
                  else if entries2 = [] then .error errFilesEmpty
                  else .ok entries2
                else .error errCommaOrRbrTop
          | _ => .error errColonAfterKey

def kMaxManifestBytes : Nat := 50 * 1024 * 1024

/-- `ParseManifestRaw` (lines 1829-1964): size guard, top-level object, the
key loop. -/
def parseManifestRaw (jsonText : Str) : Except Str (List ManifestRawEntry) :=
  if jsonText.length > kMaxManifestBytes then .error errTooLarge
  else
    match skipWs jsonText with
    | c :: r =>
      if c = lbr then parseTopLoop (jsonText.length + 2) r [] false
      else .error errTopNotObject
    | [] => .error errTopNotObject

-- --------------------------------------------------
-- Sync orchestrator (lines 2877-3184)
-- --------------------------------------------------

/-- Environment of one orchestrator run: the observed cancel flag and the
outcome of the manifest `DownloadUrl` call (the body text on success). -/
structure SyncEnv where
  canceled : Bool
  manifestDownload : Except Str Str

/-- `DownloadAndParseManifest` (lines 2877-2911): download, parse, validate;
any failure is surfaced with a category prefix.  The function performs no
filesystem mutation (it only fetches and computes). -/
def downloadAndParseManifest (env : SyncEnv) :
    Except Str (List ManifestEntry × List Str) :=
  if env.canceled then .error (("canceled").toList)
  else
    match env.manifestDownload with
    | .error e => .error (("Manifest download failed: ").toList ++ e)
    | .ok manifestText =>
      match parseManifestRaw manifestText with
      | .error e => .error (("Manifest parse failed: ").toList ++ e)
      | .ok rawFiles =>
        match validateAndNormalizeManifest rawFiles with
        | .error e => .error (("Manifest validation failed: ").toList ++ e)
        | .ok md => .ok md

/-- The filesystem-mutating phases of `RunSync` / `RemoveMapPackFiles`, in
the order the orchestrators invoke them. -/
inductive FsPhase
  /-- `DownloadAndUpdateFiles` (per-entry download / atomic replace). -/
  | perEntryTransfer
  /-- `RemoveMapPackFiles`'s per-entry unconditional deletes. -/
  | perEntryDelete
  /-- `DeleteLocalFilesNotInManifest` (orphan deletion). -/
  | orphanDeletion
  /-- `RemoveEmptyDirsBottomUp` over the sync root. -/
  | emptyDirCleanup
  /-- `RemoveOldManifestListedFiles` (legacy cleanup). -/
  | legacyCleanup
  /-- `EnsureClientPrefsMapPath` / `_Remove` (config patch). -/
  | configPatch
deriving DecidableEq, Repr

/-- `RunSync` (lines 3040-3090) reduced to the sequence of filesystem-mutating
phases it executes: a manifest failure returns before any phase; otherwise
the phases run in order, with the cancel flag consulted at the checkpoints
between them. -/
def runSyncPhases (env : SyncEnv) : List FsPhase :=
  match downloadAndParseManifest env with
  | .error _ => []
  | .ok _ =>
    if env.canceled then []
    else
      [FsPhase.perEntryTransfer] ++
      (if env.canceled then []
       else
        [FsPhase.orphanDeletion] ++
        (if env.canceled then []
         else
          [FsPhase.emptyDirCleanup] ++
          (if env.canceled then []
           else
            [FsPhase.legacyCleanup] ++
            (if env.canceled then [] else [FsPhase.configPatch]))))

/-- `RemoveMapPackFiles` (lines 3099-3184), same reduction: manifest failure
aborts before any deletion; otherwise per-entry deletes, directory cleanup,
legacy cleanup and the config patch run in order. -/
def removeMapPackFilesPhases (env : SyncEnv) : List FsPhase :=
  match downloadAndParseManifest env with
  | .error _ => []
  | .ok _ =>
    if env.canceled then []
    else
      [FsPhase.perEntryDelete] ++
      (if env.canceled then []
       else
        [FsPhase.emptyDirCleanup] ++
        (if env.canceled then []
         else
          [FsPhase.legacyCleanup] ++
          (if env.canceled then [] else [FsPhase.configPatch])))

/-- The destination-path computation of the transfer phase
(`DownloadAndUpdateFiles`, lines 2977-2988): the entry's validated `relPath`
is first stripped of one leading `"mappack/"` and the result is joined via
`MakeDestPath`. -/
def transferDestPath (localBase : Str) (e : ManifestEntry) : Str :=
  let rel :=
    if startsWith e.relPath pfxMappack then e.relPath.drop pfxMappack.length else e.relPath
  makeDestPath localBase rel

/-- The destination-path computation of the uninstall phase
(`RemoveMapPackFiles`, lines 3130-3134): `relPath` is joined unmodified. -/
def removeDestPath (localBase : Str) (e : ManifestEntry) : Str :=
  makeDestPath localBase e.relPath

-- --------------------------------------------------
-- Per-file download / verify / atomic replace (lines 2409-2495)
-- --------------------------------------------------

/-- File contents are modelled as byte lists. -/
abbrev Bytes := List Nat

/-- Outcomes of the system calls made by `DownloadUrlToFileVerifySha256`.
`download` is the result of `WinHttpDownloadToFileAndHash_NoRedirects`: on
success the complete body written to the temp file, on failure the prefix
that had been written before the error. -/
structure XferEnv where
  createDirsOk : Bool
  shaInitOk : Bool
  tmpOpenOk : Bool
  download : Except Bytes Bytes
  finishOk : Bool
  moveOk : Bool

/-- The part of the filesystem the transfer touches: the destination file and
the (freshly named, PID+tick-stamped) temp file. -/
structure XferState where
  dest : Option Bytes
  tmp : Option Bytes
deriving DecidableEq, Repr

/-- Observable filesystem events of one `DownloadUrlToFileVerifySha256` call. -/
inductive XferEvent
  | writeTmp (bytes : Bytes)
  | removeTmp
  | renameTmpToDest
deriving DecidableEq, Repr

/-- `DownloadUrlToFileVerifySha256` (lines 2415-2494), as a state machine
over `XferState`.  `sha256Hex` abstracts the streaming SHA-256
(`DlInitSha256`/`BCryptHashData`/`DlFinishSha256HexLower`) as a function from
the downloaded bytes to the lowercase hex digest.  Every failure branch of
the C++ code that has created the temp file removes it (`fs::remove(tmp)`);
the destination is written only by the final `MoveReplace`, a single
`MoveFileExW(MOVEFILE_REPLACE_EXISTING)` rename. -/
def downloadUrlToFileVerifySha256 (sha256Hex : Bytes → Str) (env : XferEnv)
    (expectedSha256HexLower : Str) (st : XferState) :
    Bool × XferState × List XferEvent :=
  if !env.createDirsOk then (false, st, [])
  else if !env.shaInitOk then (false, st, [])
  else if !env.tmpOpenOk then (false, st, [])
  else
    match env.download with
    | .error written =>
      (false, { st with tmp := none }, [XferEvent.writeTmp written, XferEvent.removeTmp])
    | .ok body =>
      -- ctx.ok is initialized to true and never cleared in the source; the
      -- `if (!ctx.ok)` branch at line 2466 is therefore not reachable and is
      -- not modelled as a separate environment outcome.
      if !env.finishOk then
        (false, { st with tmp := none }, [XferEvent.writeTmp body, XferEvent.removeTmp])
      else
        let gotHex := sha256Hex body
        if !eqIcaseAscii gotHex expectedSha256HexLower then
          (false, { st with tmp := none }, [XferEvent.writeTmp body, XferEvent.removeTmp])
        else if env.moveOk then
          (true, { dest := some body, tmp := none },
            [XferEvent.writeTmp body, XferEvent.renameTmpToDest])
        else
          (false, { st with tmp := none }, [XferEvent.writeTmp body, XferEvent.removeTmp])

-- --------------------------------------------------
-- WinHTTP fetch wrappers (lines 2041-2292, 3419-3590)
-- --------------------------------------------------

/-- One HTTP response as observed by a WinHTTP request: numeric status, a
flag marking a 3xx whose Location would downgrade https to http, and the
body. -/
structure HttpResp where
  status : Nat
  redirectDowngrades : Bool
  body : Bytes
deriving DecidableEq, Repr

/-- The two redirect policies relevant here (WinHTTP
`WINHTTP_OPTION_REDIRECT_POLICY`). -/
inductive RedirectPolicy
  /-- `WINHTTP_OPTION_REDIRECT_POLICY_NEVER`, set by
  `WinHttpOpenGet_NoRedirects` (lines 2143-2145). -/
  | never
  /-- `WINHTTP_OPTION_REDIRECT_POLICY_DISALLOW_HTTPS_TO_HTTP`, the documented
  WinHTTP default, in effect for requests that do not set the option
  (`WinHttpDownloadUrlToFile`, `WinHttpDownloadUrlToUtf8String`): the client
  transparently follows 3xx responses, re-issuing the request against the
  redirect target, except for an https→http downgrade. -/
  | defaultFollow
deriving DecidableEq, Repr

/-- Transparent redirect-following under the WinHTTP default policy: a
followable 3xx (not an https→http downgrade, and with a further response
available) causes the next response to be fetched with one more request;
anything else is final.  Returns the final response and the number of
requests issued. -/
def winHttpFollow : HttpResp → List HttpResp → HttpResp × Nat
  | r, [] => (r, 1)
  | r, next :: rest =>
    if 300 ≤ r.status && r.status < 400 && !r.redirectDowngrades then
      match winHttpFollow next rest with
      | (f, n) => (f, n + 1)
    else (r, 1)

/-- Modelled `WinHttpSendRequest`/`WinHttpReceiveResponse` semantics under a
redirect policy.  `chain` lists the successive responses the server side
would give to the successive (re-issued) requests; the result is the final
response the caller observes plus the number of requests actually issued.
`none` models a transport failure (empty chain). -/
def winHttpReceive (policy : RedirectPolicy) : List HttpResp → Option (HttpResp × Nat)
  | [] => none
  | r :: rest =>
    match policy with
    | .never => some (r, 1)
    | .defaultFollow => some (winHttpFollow r rest)

def errRedirect : Str := ("HTTP redirect received; redirects are treated as errors").toList
def errHttpStatus : Str := ("HTTP status ").toList
def errRecvFailed : Str := ("WinHttpReceiveResponse failed").toList

/-- `WinHttpOpenGet_NoRedirects` (lines 2143-2190), the fetch path used for
manifest/version text and content files of the sync engine: the request sets
`WINHTTP_OPTION_REDIRECT_POLICY_NEVER`, then a 300–399 status is a hard
error and a non-2xx status is an error. -/
def winHttpOpenGetNoRedirects (chain : List HttpResp) : Except Str (HttpResp × Nat) :=
  match winHttpReceive .never chain with
  | none => .error errRecvFailed
  | some (r, n) =>
    if 300 ≤ r.status && r.status < 400 then .error errRedirect
    else if r.status < 200 || 300 ≤ r.status then .error errHttpStatus
    else .ok (r, n)

/-- `WinHttpDownloadUrlToFile` (lines 3419-3518), the self-update binary
fetch: no redirect-policy option is set (so the WinHTTP default applies) and
only the final status is checked against 2xx.  Result: body written to the
file plus the number of requests issued. -/
def winHttpDownloadUrlToFile (chain : List HttpResp) : Except Str (Bytes × Nat) :=
  match winHttpReceive .defaultFollow chain with
  | none => .error errRecvFailed
  | some (r, n) =>
    if r.status < 200 || 300 ≤ r.status then .error errHttpStatus
    else .ok (r.body, n)

/-- `WinHttpDownloadUrlToUtf8String` (lines 3521-3582), the self-update
version descriptor fetch: identical policy and status handling. -/
def winHttpDownloadUrlToUtf8String (chain : List HttpResp) : Except Str (Bytes × Nat) :=
  match winHttpReceive .defaultFollow chain with
  | none => .error errRecvFailed
  | some (r, n) =>
    if r.status < 200 || 300 ≤ r.status then .error errHttpStatus
    else .ok (r.body, n)

-- --------------------------------------------------
-- Self-update: version parsing, comparison, trust (lines 3591-4101)
-- --------------------------------------------------

/-- Whitespace trimmed by `TrimInPlace` (lines 1083-1091). -/
def isTrimWs (c : Char) : Bool := c = ' ' || c = '\t' || c = '\r' || c = '\n'

/-- `TrimInPlace`: strip leading and trailing whitespace. -/
def trimStr (s : Str) : Str :=
  ((s.dropWhile isTrimWs).reverse.dropWhile isTrimWs).reverse

/-- `ExtractExpectedSha256Lower` (lines 3672-3712): trim, drop an optional
case-insensitive `sha256=` label, require exactly 64 hex characters, return
the lowercased digest.  (The C++ maps non-ASCII wide characters to NUL before
the hex test, which likewise fails them.) -/
def extractExpectedSha256Lower (lineIn : Str) : Option Str :=
  let line := trimStr lineIn
  if line = [] then none
  else
    let line :=
      if decide (line.length ≥ 7) && eqIcaseAscii (line.take 7) (("sha256=").toList) then
        trimStr (line.drop 7)
      else line
    if line.length ≠ 64 then none
    else if line.all isHexDigitCh then some (line.map lowerAscii)
    else none

def errVersionTxt2Lines : Str :=
  ("version.txt must have 2 lines: version then sha256.").toList
def errVersionLine1Empty : Str := ("version.txt line 1 (version) is empty.").toList
def errVersionLine2Bad : Str :=
  ("version.txt line 2 must be sha256=<64-hex> (or just 64-hex).").toList

/-- Splits off everything before the first newline. -/
def breakAtNewline (s : Str) : Option (Str × Str) :=
  match s.span (fun c => c ≠ '\n') with
  | (_, []) => none
  | (pre, _ :: post) => some (pre, post)

/-- `ParseVersionTxt2Line` (lines 3714-3750): line 1 is the version string,
line 2 the expected digest.  (The trailing-`'\r'` pops after `TrimInPlace`
are no-ops and are not repeated here.) -/
def parseVersionTxt2Line (txt : Str) : Except Str (Str × Str) :=
  match breakAtNewline txt with
  | none => .error errVersionTxt2Lines
  | some (l1raw, rest) =>
    let line1 := trimStr l1raw
    let line2 := trimStr (rest.takeWhile (fun c => c ≠ '\n'))
    if line1 = [] then .error errVersionLine1Empty
    else
      match extractExpectedSha256Lower line2 with
      | none => .error errVersionLine2Bad
      | some sha => .ok (line1, sha)

/-- The character loop of `ParseNumericDottedVersion` (lines 3762-3789).
`cur` and `inPart` are the C++ locals; components above `0xFFFFFFFF` fail. -/
def parseNumDotLoop : Str → Nat → Bool → List Nat → Option (List Nat)
  | [], cur, inPart, acc => if !inPart then none else some (acc ++ [cur])
  | c :: rest, cur, inPart, acc =>
    if c = '.' then
      if !inPart then none
      else if cur > 0xFFFFFFFF then none
      else parseNumDotLoop rest 0 false (acc ++ [cur])
    else if isDigitCh c then
      let cur2 := cur * 10 + (c.toNat - '0'.toNat)
      if cur2 > 0xFFFFFFFF then none
      else parseNumDotLoop rest cur2 true acc
    else none

/-- `ParseNumericDottedVersion` (lines 3752-3790): trim, reject empty and
leading/trailing dots, then the strict digits-and-dots loop. -/
def parseNumericDottedVersion (sIn : Str) : Option (List Nat) :=
  let s := trimStr sIn
  if s = [] then none
  else if s.head? = some '.' || s.getLast? = some '.' then none
  else parseNumDotLoop s 0 false []

/-- `CompareNumericVersions` (lines 3792-3803): component-wise comparison up
to the longer length, missing components read as 0.  (The C++ loop indexes
both vectors up to the max length with out-of-range components read as 0;
here the recursion walks the first list, reading the second through
`headD 0` / `tail`, and an exhausted first list loses exactly when some
remaining second component is positive — the same result as the loop.) -/
def compareNumericVersions : List Nat → List Nat → Int
  | [], b => if b.any (fun x => 0 < x) then -1 else 0
  | a :: ta, b =>
    if a < b.headD 0 then -1 else if b.headD 0 < a then 1 else compareNumericVersions ta b.tail

/-- Spec-side componentwise comparison of equal-length component lists. -/
def specCmpComponents : List Nat → List Nat → Int
  | x :: tx, y :: ty => if x < y then -1 else if y < x then 1 else specCmpComponents tx ty
  | _, _ => 0

/-- Spec-side comparison, modelled from the spec's words: "Compare versions
by component-wise numeric comparison, padding the shorter with zeros".  This
is the refinement target `compareNumericVersions` is checked against. -/
def specCompareZeroPadded (a b : List Nat) : Int :=
  let n := max a.length b.length
  specCmpComponents (a ++ List.replicate (n - a.length) 0)
    (b ++ List.replicate (n - b.length) 0)

/-- The pinned signer allow-list (lines 3812-3817). -/
def kAllowedSignerThumbprints : List Str :=
  [("8788209B20FDFA15C95C40DCBFDC038B54CA11BB").toList]

/-- `IsAllowedSignerThumbprint` (lines 3835-3843): case-insensitive
(`_wcsicmp`) membership in the pinned list. -/
def isAllowedSignerThumbprint (thumbUpper : Str) : Bool :=
  kAllowedSignerThumbprints.any fun t => eqIcaseAscii thumbUpper t

/-- Outcomes of the system calls the production update verification makes:
the `WinVerifyTrust` Authenticode check and the signer-thumbprint read. -/
structure VerifyEnv where
  authenticodeOk : Bool
  thumbprint : Except Str Str

/-- `VerifyDownloadedUpdateExe_Production` (lines 3968-3994): Authenticode
must verify, the signer thumbprint must be readable, and the thumbprint must
be in the pinned allow-list. -/
def verifyDownloadedUpdateExeProduction (env : VerifyEnv) : Except Str Unit :=
  if !env.authenticodeOk then
    .error (("Authenticode verification failed.").toList)
  else
    match env.thumbprint with
    | .error e => .error (("Could not read signer certificate thumbprint: ").toList ++ e)
    | .ok thumbUpper =>
      if !isAllowedSignerThumbprint thumbUpper then
        .error (("Signer certificate is not trusted. Signer thumbprint: ").toList ++ thumbUpper)
      else .ok ()

/-- `UpdateResult` (lines 3591-3600); `downloadedTemp` is the temp path
field, assigned (line 4059) just before the binary download is attempted. -/
structure UpdateResult where
  ok : Bool := false
  different : Bool := false
  localVersion : Str := []
  remoteVersion : Str := []
  expectedSha256Lower : Str := []
  err : Str := []
  downloadedTemp : Option Unit := none
deriving DecidableEq, Repr

/-- Environment of one `UpdateThreadProc` run (production build, i.e.
`DEBUG_MESSAGE` not defined): outcomes of locating the current exe,
downloading version.txt, the local version resource string, downloading the
update binary, and the two verification system calls. -/
structure UpdateEnv where
  curExeOk : Bool
  versionTxt : Except Str Str
  localVersion : Str
  exeDownloadOk : Bool
  verify : VerifyEnv

/-- Externally observable outcome of one `UpdateThreadProc` run. -/
structure UpdateOutcome where
  res : UpdateResult
  /-- `WinHttpDownloadUrlToFile` was invoked for the update binary. -/
  downloadAttempted : Bool
  /-- `DeleteFileW(tempExe)` was invoked. -/
  tempDeleted : Bool
deriving DecidableEq, Repr

/-- Whether an outcome offers an update for installation: the UI handler
(`HandleWmAppUpdateResult`, lines 4267-4293) reaches
`LaunchUpdateHelperAndExitCurrent` only when the thread reported `ok` with
`different` set; on every other path it deletes any temp and returns. -/
def offersUpdate (o : UpdateOutcome) : Bool :=
  o.res.ok && o.res.different

/-- `UpdateThreadProc` (lines 3997-4101), production configuration.  The
version descriptor is fetched, parsed, both versions strictly parsed, an
update is downloaded only when remote > local, and a downloaded binary is
kept only if `VerifyDownloadedUpdateExe_Production` accepts it — otherwise
the temp file is deleted. -/
def updateThreadProc (env : UpdateEnv) : UpdateOutcome :=
  if !env.curExeOk then
    ⟨{ err := ("Cannot locate current exe").toList }, false, false⟩
  else
    let localV := trimStr env.localVersion
    match env.versionTxt with
    | .error e =>
      ⟨{ localVersion := localV, err := ("Failed to download version.txt: ").toList ++ e },
        false, false⟩
    | .ok versionTxtRaw =>
      let versionTxt := trimStr versionTxtRaw
      if versionTxt = [] then
        ⟨{ localVersion := localV, err := ("version.txt was empty").toList }, false, false⟩
      else
        match parseVersionTxt2Line versionTxt with
        | .error e =>
          ⟨{ localVersion := localV, err := ("Invalid version.txt: ").toList ++ e },
            false, false⟩
        | .ok (remoteV, shaLower) =>
          match parseNumericDottedVersion localV with
          | none =>
            ⟨{ localVersion := localV, remoteVersion := remoteV,
               expectedSha256Lower := shaLower,
               err := ("Local version is not numeric dotted: ").toList ++ localV },
              false, false⟩
          | some localParts =>
            match parseNumericDottedVersion remoteV with
            | none =>
              ⟨{ localVersion := localV, remoteVersion := remoteV,
                 expectedSha256Lower := shaLower,
                 err := ("Remote version is not numeric dotted: ").toList ++ remoteV },
                false, false⟩
            | some remoteParts =>
              if compareNumericVersions remoteParts localParts ≤ 0 then
                ⟨{ ok := true, different := false, localVersion := localV,
                   remoteVersion := remoteV, expectedSha256Lower := shaLower },
                  false, false⟩
              else if !env.exeDownloadOk then
                ⟨{ different := true, localVersion := localV, remoteVersion := remoteV,
                   expectedSha256Lower := shaLower, downloadedTemp := some (),
                   err := ("Download failed: ").toList },
                  true, false⟩
              else
                match verifyDownloadedUpdateExeProduction env.verify with
                | .error verifyErr =>
                  ⟨{ different := true, localVersion := localV, remoteVersion := remoteV,
                     expectedSha256Lower := shaLower, downloadedTemp := some (),
                     err := ("Update rejected. ").toList ++ verifyErr },
                    true, true⟩
                | .ok _ =>
                  ⟨{ ok := true, different := true, localVersion := localV,
                     remoteVersion := remoteV, expectedSha256Lower := shaLower,
                     downloadedTemp := some () },
                    true, false⟩

-- --------------------------------------------------
-- Derived notions and concrete inputs used by the verification
-- --------------------------------------------------

/-- Boolean success test for `Except`. -/
def exceptIsOk : Except α β → Bool
  | .ok _ => true
  | .error _ => false

/-- The path-normalization pipeline the validator applies to one raw entry
(lines 2014-2017): generic normalization followed by the strict normalizer. -/
def rawEntryRel (rf : ManifestRawEntry) : Except Str Str :=
  normalizeManifestRelStrict (normalizePathGeneric rf.path)

/-- Depth-counting test over a segment sequence: a ".." pops past the first
remaining segment when it is met at depth 0 (empty and "." segments do not
change the depth). -/
def escapesRootSegs : List Str → Nat → Bool
  | [], _ => false
  | seg :: rest, d =>
    if seg = [] || seg = ['.'] then escapesRootSegs rest d
    else if seg = ['.', '.'] then (if d = 0 then true else escapesRootSegs rest (d - 1))
    else escapesRootSegs rest (d + 1)

/-- The claim-side trigger "contains a `..` segment that would pop past the
first remaining segment", evaluated on the string as the strict normalizer
segments it. -/
def hasEscapingDotDot (p : Str) : Bool :=
  escapesRootSegs (splitOnChar '/' (dropLeadingSlashes (p.map bsToSlash))) 0

/-- A well-formed path segment of a normalized relative path: non-empty, not
a dot segment, and free of separators, colons and NUL. -/
def goodSeg (q : Str) : Bool :=
  !decide (q = []) && !decide (q = ['.']) && !decide (q = ['.', '.']) &&
  !q.contains '/' && !q.contains ':' && !q.contains '\\' && !q.contains nulChar

/-- Spec-side version grammar, modelled from the spec's words: a
dot-delimited sequence of decimal components, digits and '.' only, no
leading, trailing or consecutive dots (i.e. no empty component), each
component a decimal value fitting the 32-bit accumulator. -/
def verDigitStep (n : Nat) (c : Char) : Nat := n * 10 + (c.toNat - '0'.toNat)

/-- Decimal value of a digit string. -/
def digitsToNat (g : Str) : Nat := g.foldl verDigitStep 0

/-- Spec-side dotted-version parser (see `verDigitStep`). -/
def specDottedParse (sIn : Str) : Option (List Nat) :=
  let s := trimStr sIn
  if s = [] then none
  else
    let segs := splitOnChar '.' s
    if segs.all (fun g => !decide (g = []) && g.all isDigitCh &&
        decide (digitsToNat g ≤ 0xFFFFFFFF))
    then some (segs.map digitsToNat) else none

/-- A 64-character hex string (all zeros) used as a well-formed digest in
concrete inputs. -/
def hash64zeros : Str := List.replicate 64 '0'

/-- Concrete raw manifest path whose `..` escapes the root. -/
def c2RawPath : Str := ("../evil").toList

/-- Concrete raw manifest path carrying a doubled `mappack/` prefix. -/
def c6RawPath : Str := ("mappack/mappack/x").toList

/-- Concrete validated entry produced for `c6RawPath`. -/
def c6Entry : ManifestEntry := ⟨c6RawPath, ("mappack/x").toList, hash64zeros⟩

/-- A concrete install root. -/
def demoBase : Str := ("Istaria").toList

/-- A concrete 302 redirect response. -/
def c5Resp302 : HttpResp := { status := 302, redirectDowngrades := false, body := [] }

/-- A concrete 200 response with body. -/
def c5Resp200 : HttpResp := { status := 200, redirectDowngrades := false, body := [7, 7] }

/-- A concrete response chain: a 302 redirect followed by a 200 with body. -/
def c5Chain : List HttpResp := [c5Resp302, c5Resp200]

/-- A concrete manifest whose only file entry decodes to an empty `path` and
is therefore dropped by the parser. -/
def c10DroppedJson : Str :=
  ("\x7b\"files\":[\x7b\"path\":\"\",\"sha256\":\"aa\"\x7d]\x7d").toList

/-- Both decoded fields of a raw entry are non-empty (the property the
parser's drop-empty filter at line 1920 establishes). -/
def rawFieldsNonEmpty (rf : ManifestRawEntry) : Bool :=
  !decide (rf.path = []) && !decide (rf.sha256 = [])

/-- A concrete well-formed one-entry manifest. -/
def c10GoodJson : Str :=
  ("\x7b\"files\":[\x7b\"path\":\"a\",\"sha256\":\"").toList ++ hash64zeros ++
    ("\"\x7d]\x7d").toList

/-- A concrete thumbprint not in the pinned allow-list. -/
def c4BadThumb : Str := ("DEADBEEF20FDFA15C95C40DCBFDC038B54CA11BB").toList

/-- A concrete update environment: remote 1.3.0 against local 1.2.3, passing
Authenticode, unlisted signer thumbprint. -/
def c4DemoEnv : UpdateEnv where
  curExeOk := true
  versionTxt := .ok (("1.3.0").toList ++ '\n' :: List.replicate 64 'a')
  localVersion := ("1.2.3").toList
  exeDownloadOk := true
  verify := { authenticodeOk := true, thumbprint := .ok c4BadThumb }

/-- A concrete update environment: remote 1.2 against local 1.2.0 (the
spec's padded-comparison example). -/
def c9DemoEnv : UpdateEnv where
  curExeOk := true
  versionTxt := .ok (("1.2").toList ++ '\n' :: List.replicate 64 'a')
  localVersion := ("1.2.0").toList
  exeDownloadOk := true
  verify := { authenticodeOk := true, thumbprint := .ok c4BadThumb }

-- ==================================================
-- Theorems
-- ==================================================

/-- C1: for every sync (or uninstall) run, if manifest download, manifest
parse, or manifest validation fails, the run aborts before any filesystem
mutation: none of the orphan-deletion, per-entry transfer/delete, directory
cleanup, legacy cleanup, or config-patch phases is executed. -/
theorem c1_manifest_failure_blocks_mutation (env : SyncEnv) :
    (exceptIsOk (downloadAndParseManifest env) = false →
      runSyncPhases env = [] ∧ removeMapPackFilesPhases env = []) ∧
    (∀ e, env.manifestDownload = .error e →
      exceptIsOk (downloadAndParseManifest env) = false) ∧
    (∀ t e, env.manifestDownload = .ok t → parseManifestRaw t = .error e →
      exceptIsOk (downloadAndParseManifest env) = false) ∧
    (∀ t raws e, env.manifestDownload = .ok t → parseManifestRaw t = .ok raws →
      validateAndNormalizeManifest raws = .error e →
      exceptIsOk (downloadAndParseManifest env) = false) := by
  refine ⟨?_, ?_, ?_, ?_⟩
  · intro h
    unfold runSyncPhases removeMapPackFilesPhases
    cases hd : downloadAndParseManifest env with
    | error e => simp
    | ok md => rw [hd] at h; simp [exceptIsOk] at h
  · intro e he
    unfold downloadAndParseManifest
    rw [he]
    by_cases hc : env.canceled <;> simp [hc, exceptIsOk]
  · intro t e ht hp
    unfold downloadAndParseManifest
    rw [ht]
    by_cases hc : env.canceled <;> simp [hc, hp, exceptIsOk]
  · intro t raws e ht hp hv
    unfold downloadAndParseManifest
    rw [ht]
    by_cases hc : env.canceled <;> simp [hc, hp, hv, exceptIsOk]

/-- Witness for C1 at a concrete failing download. -/
theorem c1_witness :
    exceptIsOk (downloadAndParseManifest
      { canceled := false, manifestDownload := .error [] }) = false ∧
    runSyncPhases { canceled := false, manifestDownload := .error [] } = [] ∧
    removeMapPackFilesPhases { canceled := false, manifestDownload := .error [] } = [] := by
  have h := c1_manifest_failure_blocks_mutation
    { canceled := false, manifestDownload := .error [] }
  have h2 := h.2.1 [] rfl
  exact ⟨h2, (h.1 h2).1, (h.1 h2).2⟩

/-- C3: the destination file is replaced only by the single rename of a
fully-downloaded temp whose digest matches the expected digest
case-insensitively; every failure path removes the temp and leaves the
destination unchanged. -/
theorem c3_replace_only_by_verified_rename (sha256Hex : Bytes → Str) (env : XferEnv)
    (expected : Str) (st : XferState)
    (htmp : st.tmp = none) :
    ((downloadUrlToFileVerifySha256 sha256Hex env expected st).1 = true →
      ∃ body, env.download = .ok body ∧
        eqIcaseAscii (sha256Hex body) expected = true ∧
        (downloadUrlToFileVerifySha256 sha256Hex env expected st).2.1.dest = some body ∧
        (downloadUrlToFileVerifySha256 sha256Hex env expected st).2.1.tmp = none ∧
        (downloadUrlToFileVerifySha256 sha256Hex env expected st).2.2.count
          XferEvent.renameTmpToDest = 1) ∧
    ((downloadUrlToFileVerifySha256 sha256Hex env expected st).1 = false →
      (downloadUrlToFileVerifySha256 sha256Hex env expected st).2.1.dest = st.dest ∧
      (downloadUrlToFileVerifySha256 sha256Hex env expected st).2.1.tmp = none ∧
      (downloadUrlToFileVerifySha256 sha256Hex env expected st).2.2.count
        XferEvent.renameTmpToDest = 0) := by
  unfold downloadUrlToFileVerifySha256
  cases h1 : env.createDirsOk
  · simpa using htmp
  · cases h2 : env.shaInitOk
    · simpa using htmp
    · cases h3 : env.tmpOpenOk
      · simpa using htmp
      · cases hd : env.download with
        | error w => simp [List.count_cons]
        | ok body =>
          cases h4 : env.finishOk
          · simp [List.count_cons]
          · cases h5 : eqIcaseAscii (sha256Hex body) expected
            · simp [h5, List.count_cons]
            · cases h6 : env.moveOk
              · simp [h5, List.count_cons]
              · refine ⟨fun _ => ⟨body, rfl, h5, ?_⟩, fun h => by simp [h5] at h⟩
                simp [h5, List.count_cons]

/-- Witness for C3: a successful transfer at a concrete environment. -/
theorem c3_witness :
    ∃ body,
      ({ createDirsOk := true, shaInitOk := true, tmpOpenOk := true,
         download := .ok [1], finishOk := true, moveOk := true } : XferEnv).download =
        .ok body ∧
      eqIcaseAscii ((fun _ => ("AB").toList) body) (("ab").toList) = true ∧
      (downloadUrlToFileVerifySha256 (fun _ => ("AB").toList)
        { createDirsOk := true, shaInitOk := true, tmpOpenOk := true,
          download := .ok [1], finishOk := true, moveOk := true }
        (("ab").toList) { dest := none, tmp := none }).2.1.dest = some body ∧
      (downloadUrlToFileVerifySha256 (fun _ => ("AB").toList)
        { createDirsOk := true, shaInitOk := true, tmpOpenOk := true,
          download := .ok [1], finishOk := true, moveOk := true }
        (("ab").toList) { dest := none, tmp := none }).2.1.tmp = none ∧
      (downloadUrlToFileVerifySha256 (fun _ => ("AB").toList)
        { createDirsOk := true, shaInitOk := true, tmpOpenOk := true,
          download := .ok [1], finishOk := true, moveOk := true }
        (("ab").toList) { dest := none, tmp := none }).2.2.count
        XferEvent.renameTmpToDest = 1 :=
  (c3_replace_only_by_verified_rename (fun _ => ("AB").toList)
    { createDirsOk := true, shaInitOk := true, tmpOpenOk := true,
      download := .ok [1], finishOk := true, moveOk := true }
    (("ab").toList) { dest := none, tmp := none } rfl).1 (by decide)

/-- C4: in the production configuration, a downloaded candidate binary whose
signer thumbprint is not in the pinned allow-list is rejected, its temp file
is deleted, and it is never offered for installation, even though the raw
Authenticode check passed. -/
theorem c4_untrusted_signer_rejected (env : UpdateEnv) (vtxt remoteV shaL t : Str)
    (localParts remoteParts : List Nat)
    (h1 : env.curExeOk = true)
    (h2 : env.versionTxt = .ok vtxt)
    (h3 : ¬ trimStr vtxt = [])
    (h4 : parseVersionTxt2Line (trimStr vtxt) = .ok (remoteV, shaL))
    (h5 : parseNumericDottedVersion (trimStr env.localVersion) = some localParts)
    (h6 : parseNumericDottedVersion remoteV = some remoteParts)
    (h7 : compareNumericVersions remoteParts localParts > 0)
    (h8 : env.exeDownloadOk = true)
    (h9 : env.verify.authenticodeOk = true)
    (h10 : env.verify.thumbprint = .ok t)
    (h11 : isAllowedSignerThumbprint t = false) :
    (updateThreadProc env).res.ok = false ∧
    (updateThreadProc env).downloadAttempted = true ∧
    (updateThreadProc env).tempDeleted = true ∧
    offersUpdate (updateThreadProc env) = false := by
  have h7' : ¬ compareNumericVersions remoteParts localParts ≤ 0 := by omega
  unfold updateThreadProc verifyDownloadedUpdateExeProduction offersUpdate
  rw [h2]
  simp [h1, h3, h4, h5, h6, h7', h8, h9, h10, h11]

/-- Witness for C4 at the concrete environment `c4DemoEnv`. -/
theorem c4_witness :
    (updateThreadProc c4DemoEnv).res.ok = false ∧
    (updateThreadProc c4DemoEnv).downloadAttempted = true ∧
    (updateThreadProc c4DemoEnv).tempDeleted = true ∧
    offersUpdate (updateThreadProc c4DemoEnv) = false :=
  c4_untrusted_signer_rejected c4DemoEnv
    (("1.3.0").toList ++ '\n' :: List.replicate 64 'a')
    (("1.3.0").toList) (List.replicate 64 'a') c4BadThumb
    [1, 2, 3] [1, 3, 0]
    rfl rfl (by decide) rfl rfl rfl
    (by rw [show compareNumericVersions [1, 3, 0] [1, 2, 3] = 1 by decide]; omega)
    rfl rfl rfl (by decide)

/-- C5 (amended): the sync-engine fetch path disables redirect following and
treats any first-response 3xx as a hard error without issuing a second
request; the self-update fetchers leave the WinHTTP default redirect policy,
under which a followable 3xx is transparently followed with a further
request, and only a final (unfollowed) 3xx status is an error. -/
theorem c5_redirect_handling :
    (∀ (r : HttpResp) (rest : List HttpResp), 300 ≤ r.status → r.status < 400 →
      winHttpOpenGetNoRedirects (r :: rest) = .error errRedirect ∧
      winHttpReceive .never (r :: rest) = some (r, 1)) ∧
    (∀ r : HttpResp, 300 ≤ r.status → r.status < 400 →
      winHttpDownloadUrlToFile [r] = .error errHttpStatus ∧
      winHttpDownloadUrlToUtf8String [r] = .error errHttpStatus) ∧
    (∀ (r next : HttpResp) (rest : List HttpResp),
      300 ≤ r.status → r.status < 400 → r.redirectDowngrades = false →
      winHttpDownloadUrlToFile (r :: next :: rest) =
        (match winHttpDownloadUrlToFile (next :: rest) with
         | .ok (b, n) => .ok (b, n + 1)
         | .error e => .error e) ∧
      winHttpDownloadUrlToUtf8String (r :: next :: rest) =
        (match winHttpDownloadUrlToUtf8String (next :: rest) with
         | .ok (b, n) => .ok (b, n + 1)
         | .error e => .error e)) := by
  refine ⟨?_, ?_, ?_⟩
  · intro r rest h1 h2
    constructor
    · unfold winHttpOpenGetNoRedirects winHttpReceive
      simp [h1, h2]
    · rfl
  · intro r h1 h2
    constructor
    · simp only [winHttpDownloadUrlToFile, winHttpReceive, winHttpFollow]
      simp [h1]
    · simp only [winHttpDownloadUrlToUtf8String, winHttpReceive, winHttpFollow]
      simp [h1]
  · intro r next rest h1 h2 h3
    cases hfn : winHttpFollow next rest with
    | mk f n =>
      have key : winHttpFollow r (next :: rest) = (f, n + 1) := by
        unfold winHttpFollow
        simp [h1, h2, h3, hfn]
      constructor
      · simp only [winHttpDownloadUrlToFile, winHttpReceive, key, hfn]
        by_cases hs : f.status < 200 || 300 ≤ f.status <;> simp [hs]
      · simp only [winHttpDownloadUrlToUtf8String, winHttpReceive, key, hfn]
        by_cases hs : f.status < 200 || 300 ≤ f.status <;> simp [hs]

/-- Witness for C5's amended statement, at the concrete chain `c5Chain`. -/
theorem c5_witness :
    winHttpDownloadUrlToFile c5Chain =
      (match winHttpDownloadUrlToFile [c5Resp200] with
       | .ok (b, n) => .ok (b, n + 1)
       | .error e => .error e) ∧
    winHttpOpenGetNoRedirects c5Chain = .error errRedirect :=
  ⟨(c5_redirect_handling.2.2 c5Resp302 c5Resp200 [] (by decide) (by decide) (by decide)).1,
    (c5_redirect_handling.1 c5Resp302 [c5Resp200] (by decide) (by decide)).1⟩

/-- C5 counterexample: the self-update binary fetch, given a first response
with status 302 followed by a 200, succeeds with the 200's body after issuing
two requests — the redirect is followed, not treated as a hard error. -/
theorem c5_counterexample :
    c5Chain.map HttpResp.status = [302, 200] ∧
    winHttpDownloadUrlToFile c5Chain = .ok ([7, 7], 2) := by
  constructor <;> rfl

/-- C6 (amended): the transfer phase computes the destination by joining the
sync root with the validated `relPath` after stripping one leading
`mappack/`; for entries whose `relPath` does not carry that prefix the path
is used exactly as produced by the validator. -/
theorem c6_transfer_dest_strips_mappack (raws : List ManifestRawEntry) (base : Str)
    (work : List ManifestEntry) (relSet : List Str) (e : ManifestEntry)
    (hv : validateAndNormalizeManifest raws = .ok (work, relSet)) (he : e ∈ work) :
    (startsWith e.relPath pfxMappack = false →
      transferDestPath base e = makeDestPath base e.relPath) ∧
    (startsWith e.relPath pfxMappack = true →
      transferDestPath base e = makeDestPath base (e.relPath.drop pfxMappack.length)) := by
  unfold transferDestPath
  constructor <;> intro h <;> simp [h]

/-- Witness for C6's amended statement at a concrete validated manifest. -/
theorem c6_witness :
    (startsWith (("a/b.png").toList) pfxMappack = false →
      transferDestPath demoBase ⟨("a/b.png").toList, ("a/b.png").toList, hash64zeros⟩ =
        makeDestPath demoBase (("a/b.png").toList)) ∧
    (startsWith (("a/b.png").toList) pfxMappack = true →
      transferDestPath demoBase ⟨("a/b.png").toList, ("a/b.png").toList, hash64zeros⟩ =
        makeDestPath demoBase ((("a/b.png").toList).drop pfxMappack.length)) :=
  c6_transfer_dest_strips_mappack
    [⟨("a/b.png").toList, hash64zeros⟩] demoBase
    [⟨("a/b.png").toList, ("a/b.png").toList, hash64zeros⟩]
    [("a/b.png").toList]
    ⟨("a/b.png").toList, ("a/b.png").toList, hash64zeros⟩
    rfl (by decide)

/-- C6 counterexample: the validated entry for raw path `mappack/mappack/x`
has `relPath = mappack/x`, but the transfer phase joins the root with `x`,
not with `relPath` as produced by the validator. -/
theorem c6_counterexample :
    validateAndNormalizeManifest [⟨c6RawPath, hash64zeros⟩] =
      .ok ([c6Entry], [("mappack/x").toList]) ∧
    transferDestPath demoBase c6Entry = makeDestPath demoBase (("x").toList) ∧
    transferDestPath demoBase c6Entry ≠ makeDestPath demoBase c6Entry.relPath := by
  refine ⟨by rfl, by rfl, by decide⟩

-- Ordering facts about the sort comparator --------------------------------

theorem strLt_asymm : ∀ {a b : Str}, strLt a b = true → strLt b a = false
  | [], [], h => by simp [strLt] at h
  | [], _ :: _, _ => by simp [strLt]
  | _ :: _, [], h => by simp [strLt] at h
  | x :: s, y :: t, h => by
    simp only [strLt] at h ⊢
    by_cases hxy : x.toNat < y.toNat
    · have : ¬ y.toNat < x.toNat := by omega
      simp [hxy, this]
    · by_cases hyx : y.toNat < x.toNat
      · simp [hxy, hyx] at h
      · simp only [hxy, hyx, if_false] at h ⊢
        exact strLt_asymm h

theorem strLt_trans : ∀ {a b c : Str},
    strLt a b = true → strLt b c = true → strLt a c = true
  | [], b, c, _, h2 => by
    cases c with
    | nil => cases b <;> simp [strLt] at h2
    | cons z u => simp [strLt]
  | _ :: _, b, c, h1, h2 => by
    cases b with
    | nil => simp [strLt] at h1
    | cons y t =>
      cases c with
      | nil => simp [strLt] at h2
      | cons z u =>
        rename_i x s
        simp only [strLt] at h1 h2 ⊢
        by_cases hxy : x.toNat < y.toNat <;> by_cases hyz : y.toNat < z.toNat
        · have : x.toNat < z.toNat := by omega
          simp [this]
        · by_cases hzy : z.toNat < y.toNat
          · simp [hyz, hzy] at h2
          · have : x.toNat < z.toNat := by omega
            simp [this]
        · by_cases hyx : y.toNat < x.toNat
          · simp [hxy, hyx] at h1
          · have : x.toNat < z.toNat := by omega
            simp [this]
        · by_cases hyx : y.toNat < x.toNat
          · simp [hxy, hyx] at h1
          · by_cases hzy : z.toNat < y.toNat
            · simp [hyz, hzy] at h2
            · have hne1 : ¬ x.toNat < z.toNat := by omega
              have hne2 : ¬ z.toNat < x.toNat := by omega
              simp only [hxy, hyx, if_false] at h1
              simp only [hyz, hzy, if_false] at h2
              simp only [hne1, hne2, if_false]
              exact strLt_trans h1 h2

theorem strLt_connex : ∀ {a b : Str},
    strLt a b = false → strLt b a = false → a = b
  | [], [], _, _ => rfl
  | [], _ :: _, h1, _ => by simp [strLt] at h1
  | _ :: _, [], _, h2 => by simp [strLt] at h2
  | x :: s, y :: t, h1, h2 => by
    simp only [strLt] at h1 h2
    by_cases hxy : x.toNat < y.toNat
    · simp [hxy] at h1
    · by_cases hyx : y.toNat < x.toNat
      · simp [hxy, hyx] at h2
      · simp only [hxy, hyx, if_false] at h1 h2
        have hxy' : x.toNat = y.toNat := by omega
        have hx : x = y := by
          rw [← Char.ofNat_toNat x, ← Char.ofNat_toNat y, hxy']
        rw [hx, strLt_connex h1 h2]

/-- "Not greater" is transitive (used for insertion-sort sortedness). -/
theorem strLt_nle_trans {a b c : Str}
    (h1 : strLt b a = false) (h2 : strLt c b = false) : strLt c a = false := by
  cases h : strLt c a
  · rfl
  · exfalso
    cases hbc : strLt b c with
    | true =>
      have := strLt_trans hbc h
      rw [this] at h1; cases h1
    | false =>
      have hbceq : b = c := strLt_connex hbc h2
      rw [← hbceq] at h
      rw [h] at h1; cases h1

-- Insertion sort: permutation and sortedness ------------------------------

theorem insertByRel_perm (e : ManifestEntry) :
    ∀ l : List ManifestEntry, (insertByRel e l).Perm (e :: l)
  | [] => List.Perm.refl _
  | f :: fs => by
    unfold insertByRel
    by_cases h : strLt f.relPath e.relPath = true
    · rw [if_pos h]
      exact ((insertByRel_perm e fs).cons f).trans (List.Perm.swap e f fs)
    · rw [if_neg h]

theorem sortByRel_perm : ∀ l : List ManifestEntry, (sortByRel l).Perm l
  | [] => List.Perm.refl _
  | e :: l => by
    unfold sortByRel
    simp only [List.foldr_cons]
    exact (insertByRel_perm e _).trans ((sortByRel_perm l).cons e)

theorem insertByRel_sorted (e : ManifestEntry) :
    ∀ l : List ManifestEntry,
    l.Pairwise (fun a b => strLt b.relPath a.relPath = false) →
    (insertByRel e l).Pairwise (fun a b => strLt b.relPath a.relPath = false)
  | [], _ => List.pairwise_singleton _ _
  | f :: fs, h => by
    unfold insertByRel
    rcases List.pairwise_cons.mp h with ⟨hf, hfs⟩
    by_cases hc : strLt f.relPath e.relPath = true
    · rw [if_pos hc]
      refine List.pairwise_cons.mpr ⟨?_, insertByRel_sorted e fs hfs⟩
      intro x hx
      rcases List.mem_cons.mp ((insertByRel_perm e fs).mem_iff.mp hx) with rfl | hx2
      · exact strLt_asymm hc
      · exact hf x hx2
    · rw [if_neg hc]
      have hcf : strLt f.relPath e.relPath = false := by simpa using hc
      refine List.pairwise_cons.mpr ⟨?_, h⟩
      intro x hx
      rcases List.mem_cons.mp hx with rfl | hx2
      · exact hcf
      · exact strLt_nle_trans hcf (hf x hx2)

theorem sortByRel_sorted : ∀ l : List ManifestEntry,
    (sortByRel l).Pairwise (fun a b => strLt b.relPath a.relPath = false)
  | [] => List.Pairwise.nil
  | e :: l => by
    unfold sortByRel
    simp only [List.foldr_cons]
    exact insertByRel_sorted e _ (sortByRel_sorted l)

-- Validator-loop invariants ------------------------------------------------

theorem validateLoop_ok_hex : ∀ (raws : List ManifestRawEntry)
    (work : List ManifestEntry) (relSet : List Str)
    (out : List ManifestEntry × List Str),
    validateLoop raws work relSet = .ok out →
    ∀ rf ∈ raws, isHex64 rf.sha256 = true
  | [], _, _, _, _, rf, hrf => absurd hrf (List.not_mem_nil rf)
  | rf0 :: rest, work, relSet, out, h, rf, hrf => by
    unfold validateLoop at h
    by_cases h1 : rf0.path = []
    · simp [h1] at h
    · rw [if_neg h1] at h
      cases h2 : isHex64 rf0.sha256
      · rw [h2] at h; simp at h
      · rw [h2] at h
        simp only [Bool.not_true, Bool.false_eq_true, if_false] at h
        cases h3 : normalizeManifestRelStrict (normalizePathGeneric rf0.path) with
        | error e => rw [h3] at h; cases h
        | ok rel =>
          rw [h3] at h
          cases hc4 : relSet.contains rel
          · simp only [hc4, Bool.false_eq_true, if_false] at h
            rcases List.mem_cons.mp hrf with rfl | hrf2
            · exact h2
            · exact validateLoop_ok_hex rest _ _ out h rf hrf2
          · have h4 : rel ∈ relSet := by simpa using hc4
            simp [h4] at h

theorem validateLoop_ok_rels : ∀ (raws : List ManifestRawEntry)
    (work : List ManifestEntry) (relSet : List Str)
    (out : List ManifestEntry × List Str),
    validateLoop raws work relSet = .ok out →
    (∀ rf ∈ raws, ∃ rel, rawEntryRel rf = .ok rel ∧ rel ∉ relSet) ∧
    raws.Pairwise (fun rf1 rf2 => ∀ r1 r2,
      rawEntryRel rf1 = .ok r1 → rawEntryRel rf2 = .ok r2 → r1 ≠ r2)
  | [], _, _, _, _ => ⟨fun rf hrf => absurd hrf (List.not_mem_nil rf), List.Pairwise.nil⟩
  | rf0 :: rest, work, relSet, out, h => by
    unfold validateLoop at h
    by_cases h1 : rf0.path = []
    · simp [h1] at h
    · rw [if_neg h1] at h
      cases h2 : isHex64 rf0.sha256
      · rw [h2] at h; simp at h
      · rw [h2] at h
        simp only [Bool.not_true, Bool.false_eq_true, if_false] at h
        cases h3 : normalizeManifestRelStrict (normalizePathGeneric rf0.path) with
        | error e => rw [h3] at h; cases h
        | ok rel =>
          rw [h3] at h
          cases hc4 : relSet.contains rel
          · simp only [hc4, Bool.false_eq_true, if_false] at h
            have h4 : rel ∉ relSet := by simpa using hc4
            have ih := validateLoop_ok_rels rest _ _ out h
            constructor
            · intro rf hrf
              rcases List.mem_cons.mp hrf with rfl | hrf2
              · exact ⟨rel, by simpa [rawEntryRel] using h3, h4⟩
              · rcases ih.1 rf hrf2 with ⟨r, hr, hrm⟩
                exact ⟨r, hr, fun hmem => hrm (List.mem_cons_of_mem rel hmem)⟩
            · refine List.pairwise_cons.mpr ⟨?_, ih.2⟩
              intro rf2 hrf2 r1 r2 hr1 hr2 hEq
              rcases ih.1 rf2 hrf2 with ⟨r3, hr3, hrm3⟩
              have hx : rawEntryRel rf0 = .ok rel := by simpa [rawEntryRel] using h3
              rw [hr1] at hx
              injection hx with hx1
              rw [hr2] at hr3
              injection hr3 with hx2
              apply hrm3
              rw [← hx2, ← hEq, hx1]
              exact List.mem_cons_self _ _
          · have h4 : rel ∈ relSet := by simpa using hc4
            simp [h4] at h

theorem validateLoop_ok_nodup : ∀ (raws : List ManifestRawEntry)
    (work : List ManifestEntry) (relSet : List Str)
    (w : List ManifestEntry) (rs : List Str),
    validateLoop raws work relSet = .ok (w, rs) →
    relSet.reverse = work.map (fun e => e.relPath) → relSet.Nodup →
    rs.reverse = w.map (fun e => e.relPath) ∧ rs.Nodup
  | [], work, relSet, w, rs, h, hinv, hnd => by
    unfold validateLoop at h
    cases h
    exact ⟨hinv, hnd⟩
  | rf0 :: rest, work, relSet, w, rs, h, hinv, hnd => by
    unfold validateLoop at h
    by_cases h1 : rf0.path = []
    · simp [h1] at h
    · rw [if_neg h1] at h
      cases h2 : isHex64 rf0.sha256
      · rw [h2] at h; simp at h
      · rw [h2] at h
        simp only [Bool.not_true, Bool.false_eq_true, if_false] at h
        cases h3 : normalizeManifestRelStrict (normalizePathGeneric rf0.path) with
        | error e => rw [h3] at h; cases h
        | ok rel =>
          rw [h3] at h
          cases hc4 : relSet.contains rel
          · simp only [hc4, Bool.false_eq_true, if_false] at h
            have h4 : rel ∉ relSet := by simpa using hc4
            refine validateLoop_ok_nodup rest _ _ w rs h ?_ ?_
            · simp [hinv]
            · exact List.nodup_cons.mpr ⟨h4, hnd⟩
          · have h4 : rel ∈ relSet := by simpa using hc4
            simp [h4] at h

/-- C7: a successfully validated work list is strictly sorted by `relPath`
(in particular no two entries share a `relPath`), and a raw list containing
two entries that normalize to the same `relPath` never validates. -/
theorem c7_worklist_sorted_unique :
    (∀ (raws : List ManifestRawEntry) (work : List ManifestEntry) (relSet : List Str),
      validateAndNormalizeManifest raws = .ok (work, relSet) →
      work.Pairwise (fun a b => strLt a.relPath b.relPath = true)) ∧
    (∀ (pre mid post : List ManifestRawEntry) (a b : ManifestRawEntry) (r : Str),
      rawEntryRel a = .ok r → rawEntryRel b = .ok r →
      exceptIsOk (validateAndNormalizeManifest (pre ++ a :: mid ++ b :: post)) = false) := by
  constructor
  · intro raws work relSet hv
    unfold validateAndNormalizeManifest at hv
    by_cases hr : raws = []
    · simp [hr] at hv
    · rw [if_neg hr] at hv
      cases hl : validateLoop raws [] [] with
      | error e => rw [hl] at hv; cases hv
      | ok p =>
        obtain ⟨w0, rs0⟩ := p
        rw [hl] at hv
        obtain ⟨rfl, rfl⟩ : sortByRel w0 = work ∧ rs0 = relSet := by
          simpa using hv
        have hnd := (validateLoop_ok_nodup raws [] [] w0 rs0 hl (by simp) (by simp)).2
        have hmapnd : (w0.map (fun e => e.relPath)).Nodup := by
          have := (validateLoop_ok_nodup raws [] [] w0 rs0 hl (by simp) (by simp)).1
          rw [← this]
          exact List.nodup_reverse.mpr hnd
        have hperm : (sortByRel w0).Perm w0 := sortByRel_perm w0
        have hne : w0.Pairwise (fun a b => a.relPath ≠ b.relPath) :=
          (List.pairwise_map.mp hmapnd)
        have hne' : (sortByRel w0).Pairwise (fun a b => a.relPath ≠ b.relPath) :=
          (hperm.pairwise_iff (fun h => h.symm)).mpr hne
        have hsorted := sortByRel_sorted w0
        refine (hsorted.and hne').imp ?_
        rintro a b ⟨hab, hne2⟩
        cases hx : strLt a.relPath b.relPath
        · exact absurd (strLt_connex hab hx) (fun h => hne2 h.symm)
        · rfl
  · intro pre mid post a b r hra hrb
    cases hv : validateAndNormalizeManifest (pre ++ a :: mid ++ b :: post) with
    | error e => rfl
    | ok p =>
      exfalso
      obtain ⟨work, relSet⟩ := p
      unfold validateAndNormalizeManifest at hv
      by_cases hr : pre ++ a :: mid ++ b :: post = []
      · simp [hr] at hv
      · rw [if_neg hr] at hv
        cases hl : validateLoop (pre ++ a :: mid ++ b :: post) [] [] with
        | error e => rw [hl] at hv; cases hv
        | ok p0 =>
          have hpw := (validateLoop_ok_rels _ _ _ p0 hl).2
          have h12 := (List.pairwise_append.mp hpw).2.2
          exact h12 a (List.mem_append_right _ (List.mem_cons_self _ _))
            b (List.mem_cons_self _ _) r r hra hrb rfl

/-- Witness for C7 at concrete inputs: a two-entry manifest sorts, and a
duplicate-normalizing pair fails validation. -/
theorem c7_witness :
    ([⟨("b").toList, ("b").toList, hash64zeros⟩,
      ⟨("a").toList, ("a").toList, hash64zeros⟩] : List ManifestEntry).Pairwise
        (fun a b => strLt a.relPath b.relPath = true) ∨
    exceptIsOk (validateAndNormalizeManifest
      [⟨("a").toList, hash64zeros⟩, ⟨("x/../a").toList, hash64zeros⟩]) = false :=
  Or.inr (c7_worklist_sorted_unique.2 [] [] [] ⟨("a").toList, hash64zeros⟩
    ⟨("x/../a").toList, hash64zeros⟩ (("a").toList) rfl rfl)

/-- The validator loop processes a concatenation left-to-right. -/
theorem validateLoop_append : ∀ (pre rest : List ManifestRawEntry)
    (work : List ManifestEntry) (relSet : List Str),
    validateLoop (pre ++ rest) work relSet =
      (match validateLoop pre work relSet with
       | .error e => .error e
       | .ok (w, s) => validateLoop rest w s)
  | [], rest, work, relSet => by simp [validateLoop]
  | rf0 :: pre, rest, work, relSet => by
    show validateLoop (rf0 :: (pre ++ rest)) work relSet = _
    simp only [validateLoop]
    by_cases h1 : rf0.path = []
    · simp [h1]
    · rw [if_neg h1, if_neg h1]
      cases h2 : isHex64 rf0.sha256
      · simp
      · simp only [Bool.not_true, Bool.false_eq_true, if_false]
        cases h3 : normalizeManifestRelStrict (normalizePathGeneric rf0.path) with
        | error e => simp
        | ok rel =>
          cases hc4 : relSet.contains rel
          · simp only [hc4, Bool.false_eq_true, if_false]
            exact validateLoop_append pre rest _ _
          · have h4 : rel ∈ relSet := by simpa using hc4
            simp [h4]

/-- C8: a raw entry whose hash field is not 64 hex characters makes the whole
manifest fail validation; when that entry is the first one to fail any check,
the error message names the entry's path. -/
theorem c8_bad_hash_fails_with_path :
    (∀ (raws : List ManifestRawEntry) (rf : ManifestRawEntry), rf ∈ raws →
      isHex64 rf.sha256 = false →
      exceptIsOk (validateAndNormalizeManifest raws) = false) ∧
    (∀ (pre post : List ManifestRawEntry) (e : ManifestRawEntry)
      (w : List ManifestEntry) (s : List Str),
      validateLoop pre [] [] = .ok (w, s) → ¬ e.path = [] → isHex64 e.sha256 = false →
      validateAndNormalizeManifest (pre ++ e :: post) = .error (errBadSha ++ e.path)) := by
  constructor
  · intro raws rf hmem hbad
    cases hv : validateAndNormalizeManifest raws with
    | error e => rfl
    | ok p =>
      exfalso
      unfold validateAndNormalizeManifest at hv
      by_cases hr : raws = []
      · simp [hr] at hv
      · rw [if_neg hr] at hv
        cases hl : validateLoop raws [] [] with
        | error e => rw [hl] at hv; cases hv
        | ok p0 =>
          have := validateLoop_ok_hex raws [] [] p0 hl rf hmem
          rw [this] at hbad
          cases hbad
  · intro pre post e w s hpre hpath hbad
    unfold validateAndNormalizeManifest
    have hne : ¬ pre ++ e :: post = [] := by
      intro hx
      rcases List.append_eq_nil.mp hx with ⟨_, h2⟩
      cases h2
    rw [if_neg hne, validateLoop_append, hpre]
    unfold validateLoop
    rw [if_neg hpath, hbad]
    simp

/-- Witness for C8: a concrete manifest whose second entry has a bad hash. -/
theorem c8_witness :
    validateAndNormalizeManifest
      [⟨("a").toList, hash64zeros⟩, ⟨("b").toList, ("xy").toList⟩] =
      .error (errBadSha ++ ("b").toList) := by
  have h := c8_bad_hash_fails_with_path.2 [⟨("a").toList, hash64zeros⟩] []
    ⟨("b").toList, ("xy").toList⟩
  have hpre : validateLoop [(⟨("a").toList, hash64zeros⟩ : ManifestRawEntry)] [] [] =
      .ok ([⟨("a").toList, ("a").toList, hash64zeros⟩], [("a").toList]) := by rfl
  exact h _ _ hpre (by decide) (by decide)

-- Version comparison: the C++ loop against the spec-side padded compare ----

theorem compareNumericVersions_nil_right : ∀ a : List Nat,
    compareNumericVersions a [] = (if a.any (fun x => 0 < x) then 1 else 0)
  | [] => by simp [compareNumericVersions]
  | x :: ta => by
    simp only [compareNumericVersions, List.headD_nil, List.tail_nil, List.any_cons]
    by_cases hx : 0 < x
    · have h1 : ¬ x < 0 := by omega
      simp [hx, h1]
    · have hx0 : x = 0 := by omega
      simp [hx0, compareNumericVersions_nil_right ta]

theorem specCmpComponents_zeros_right : ∀ a : List Nat,
    specCmpComponents a (List.replicate a.length 0) =
      (if a.any (fun x => 0 < x) then 1 else 0)
  | [] => by simp [specCmpComponents]
  | x :: ta => by
    simp only [List.length_cons, List.replicate_succ, specCmpComponents, List.any_cons]
    by_cases hx : 0 < x
    · have h1 : ¬ x < 0 := by omega
      simp [hx, h1]
    · have hx0 : x = 0 := by omega
      simp [hx0, specCmpComponents_zeros_right ta]

theorem specCmpComponents_zeros_left : ∀ b : List Nat,
    specCmpComponents (List.replicate b.length 0) b =
      (if b.any (fun x => 0 < x) then -1 else 0)
  | [] => by simp [specCmpComponents]
  | y :: tb => by
    simp only [List.length_cons, List.replicate_succ, specCmpComponents, List.any_cons]
    by_cases hy : 0 < y
    · simp [hy]
    · have hy0 : y = 0 := by omega
      simp [hy0, specCmpComponents_zeros_left tb]

theorem compareNumericVersions_eq_spec : ∀ a b : List Nat,
    compareNumericVersions a b = specCompareZeroPadded a b
  | [], b => by
    simp only [compareNumericVersions, specCompareZeroPadded, List.length_nil,
      Nat.zero_max, Nat.sub_zero, List.nil_append, Nat.sub_self, List.replicate_zero,
      List.append_nil]
    rw [specCmpComponents_zeros_left b]
  | x :: ta, [] => by
    rw [compareNumericVersions_nil_right]
    simp only [specCompareZeroPadded, List.length_nil, Nat.max_zero, Nat.sub_zero,
      List.nil_append, Nat.sub_self, List.replicate_zero, List.append_nil]
    exact (specCmpComponents_zeros_right (x :: ta)).symm
  | x :: ta, y :: tb => by
    simp only [compareNumericVersions, specCompareZeroPadded, List.length_cons,
      List.headD_cons, List.tail_cons]
    have hmax : max (ta.length + 1) (tb.length + 1) = max ta.length tb.length + 1 :=
      Nat.succ_max_succ ta.length tb.length
    rw [hmax]
    have hsa : max ta.length tb.length + 1 - (ta.length + 1) =
        max ta.length tb.length - ta.length := by omega
    have hsb : max ta.length tb.length + 1 - (tb.length + 1) =
        max ta.length tb.length - tb.length := by omega
    rw [hsa, hsb]
    simp only [List.cons_append, specCmpComponents]
    by_cases h1 : x < y
    · simp [h1]
    · by_cases h2 : y < x
      · simp [h1, h2]
      · simp only [h1, h2, if_false]
        exact compareNumericVersions_eq_spec ta tb

-- Version parsing: the C++ loop against the spec-side grammar --------------

theorem splitOnChar_ne_nil : ∀ (sep : Char) (s : Str), splitOnChar sep s ≠ []
  | _, [] => by simp [splitOnChar]
  | sep, c :: rest => by
    unfold splitOnChar
    by_cases h : c = sep
    · simp [h]
    · rw [if_neg h]
      cases hs : splitOnChar sep rest <;> simp

theorem foldl_verDigitStep_le : ∀ (g : Str) (cur : Nat), cur ≤ g.foldl verDigitStep cur
  | [], _ => Nat.le_refl _
  | d :: g, cur => by
    rw [List.foldl_cons]
    refine Nat.le_trans ?_ (foldl_verDigitStep_le g (verDigitStep cur d))
    unfold verDigitStep
    omega

theorem parseNumDotLoop_eq : ∀ (s : Str) (cur : Nat) (inPart : Bool) (acc : List Nat),
    cur ≤ 0xFFFFFFFF →
    parseNumDotLoop s cur inPart acc =
      (match splitOnChar '.' s with
       | [] => none
       | g :: gs =>
         if ((inPart || !decide (g = [])) && g.all isDigitCh &&
             decide (g.foldl verDigitStep cur ≤ 0xFFFFFFFF) &&
             gs.all (fun h => !decide (h = []) && h.all isDigitCh &&
               decide (digitsToNat h ≤ 0xFFFFFFFF)))
         then some (acc ++ g.foldl verDigitStep cur :: gs.map digitsToNat)
         else none)
  | [], cur, inPart, acc, hcur => by
    cases inPart <;> simp [parseNumDotLoop, splitOnChar, hcur]
  | c :: rest, cur, inPart, acc, hcur => by
    by_cases hdot : c = '.'
    · subst hdot
      cases hsp : splitOnChar '.' rest with
      | nil => exact absurd hsp (splitOnChar_ne_nil '.' rest)
      | cons g2 gs2 =>
        have hstep := parseNumDotLoop_eq rest 0 false (acc ++ [cur]) (by omega)
        rw [hsp] at hstep
        cases inPart with
        | false => simp [parseNumDotLoop, splitOnChar, hsp]
        | true =>
          have hnc : ¬ cur > 0xFFFFFFFF := by omega
          simp only [parseNumDotLoop, if_pos rfl, Bool.not_true, Bool.false_eq_true,
            if_false, hnc, splitOnChar, hsp]
          rw [hstep]
          simp [hcur, digitsToNat, List.all_cons, Bool.and_assoc]
    · by_cases hdig : isDigitCh c = true
      · cases hsp : splitOnChar '.' rest with
        | nil => exact absurd hsp (splitOnChar_ne_nil '.' rest)
        | cons g2 gs2 =>
          have hs2 : splitOnChar '.' (c :: rest) = (c :: g2) :: gs2 := by
            unfold splitOnChar
            rw [if_neg hdot, hsp]
          rw [hs2]
          have hd : verDigitStep cur c = cur * 10 + (c.toNat - '0'.toNat) := rfl
          have hfold : (c :: g2).foldl verDigitStep cur =
              g2.foldl verDigitStep (cur * 10 + (c.toNat - '0'.toNat)) := by
            rw [List.foldl_cons, hd]
          simp only [parseNumDotLoop, if_neg hdot, hdig, if_pos hdig]
          by_cases hov : cur * 10 + (c.toNat - '0'.toNat) > 0xFFFFFFFF
          · rw [if_pos hov]
            have hle := foldl_verDigitStep_le g2 (verDigitStep cur c)
            rw [hd] at hle
            have hnle : ¬ List.foldl verDigitStep (verDigitStep cur c) g2 ≤ 0xFFFFFFFF := by
              rw [hd]
              omega
            simp [hnle]
          · rw [if_neg hov]
            have hstep := parseNumDotLoop_eq rest (cur * 10 + (c.toNat - '0'.toNat))
              true acc (by omega)
            rw [hsp] at hstep
            rw [hstep, hfold]
            simp [List.all_cons, hdig]
      · cases hsp : splitOnChar '.' rest with
        | nil => exact absurd hsp (splitOnChar_ne_nil '.' rest)
        | cons g2 gs2 =>
          have hs2 : splitOnChar '.' (c :: rest) = (c :: g2) :: gs2 := by
            unfold splitOnChar
            rw [if_neg hdot, hsp]
          rw [hs2]
          simp [parseNumDotLoop, hdot, hdig, List.all_cons]

theorem splitOnChar_singleton_nil : ∀ (sep : Char) (s : Str),
    splitOnChar sep s = [[]] → s = []
  | _, [], _ => rfl
  | sep, c :: rest, h => by
    simp only [splitOnChar] at h
    by_cases hc : c = sep
    · rw [if_pos hc] at h
      simp only [List.cons.injEq] at h
      exact absurd h.2 (splitOnChar_ne_nil sep rest)
    · rw [if_neg hc] at h
      cases hs : splitOnChar sep rest with
      | nil => exact absurd hs (splitOnChar_ne_nil sep rest)
      | cons g gs =>
        rw [hs] at h
        exact absurd (List.cons.inj h).1 (List.cons_ne_nil c g)

theorem splitOnChar_getLast_sep : ∀ (sep : Char) (s : Str),
    s.getLast? = some sep → (splitOnChar sep s).getLast? = some []
  | _, [], h => by simp at h
  | sep, [c], h => by
    have hc : c = sep := by simpa using h
    subst hc
    unfold splitOnChar
    rw [if_pos rfl]
    rfl
  | sep, c :: c2 :: rest, h => by
    rw [List.getLast?_cons_cons] at h
    have ih := splitOnChar_getLast_sep sep (c2 :: rest) h
    cases hs : splitOnChar sep (c2 :: rest) with
    | nil => exact absurd hs (splitOnChar_ne_nil sep (c2 :: rest))
    | cons g gs =>
      rw [hs] at ih
      unfold splitOnChar
      rw [hs]
      by_cases hc : c = sep
      · rw [if_pos hc, List.getLast?_cons_cons]
        exact ih
      · rw [if_neg hc]
        show ((c :: g) :: gs).getLast? = some []
        cases gs with
        | nil =>
          exfalso
          have hg : g = [] := by simpa using ih
          subst hg
          exact absurd (splitOnChar_singleton_nil sep (c2 :: rest) hs)
            (List.cons_ne_nil c2 rest)
        | cons g2 gs2 =>
          rw [List.getLast?_cons_cons]
          rw [List.getLast?_cons_cons] at ih
          exact ih

theorem parseNumericDottedVersion_eq_spec (s : Str) :
    parseNumericDottedVersion s = specDottedParse s := by
  simp only [parseNumericDottedVersion, specDottedParse]
  by_cases h0 : trimStr s = []
  · simp [h0]
  · rw [if_neg h0, if_neg h0]
    cases hsp : splitOnChar '.' (trimStr s) with
    | nil => exact absurd hsp (splitOnChar_ne_nil '.' (trimStr s))
    | cons g gs =>
      by_cases hhead : (trimStr s).head? = some '.'
      · obtain ⟨c0, rest0, hts⟩ : ∃ c0 rest0, trimStr s = c0 :: rest0 := by
          cases hts : trimStr s with
          | nil => exact absurd hts h0
          | cons c0 rest0 => exact ⟨c0, rest0, rfl⟩
        have hc0 : c0 = '.' := by
          rw [hts] at hhead
          simpa using hhead
        subst hc0
        have hsp2 : splitOnChar '.' (trimStr s) = [] :: splitOnChar '.' rest0 := by
          rw [hts]
          simp [splitOnChar]
        rw [hsp] at hsp2
        injection hsp2 with hg hgs
        subst hg
        have hcondT : (decide ((trimStr s).head? = some '.') ||
            decide ((trimStr s).getLast? = some '.')) = true := by simp [hhead]
        rw [if_pos hcondT]
        simp
      · by_cases hlast : (trimStr s).getLast? = some '.'
        · have hcondT : (decide ((trimStr s).head? = some '.') ||
              decide ((trimStr s).getLast? = some '.')) = true := by simp [hlast]
          rw [if_pos hcondT]
          have hlg := splitOnChar_getLast_sep '.' (trimStr s) hlast
          rw [hsp] at hlg
          have hmem : ([] : Str) ∈ g :: gs := by
            obtain ⟨hne, heq⟩ := List.mem_getLast?_eq_getLast
              (l := g :: gs) (x := ([] : Str)) (Option.mem_def.mpr hlg)
            rw [heq]
            exact List.getLast_mem hne
          have hallF : ((g :: gs).all (fun h => !decide (h = []) && h.all isDigitCh &&
              decide (digitsToNat h ≤ 0xFFFFFFFF))) = false := by
            cases hall : (g :: gs).all (fun h => !decide (h = []) && h.all isDigitCh &&
                decide (digitsToNat h ≤ 0xFFFFFFFF)) with
            | false => rfl
            | true =>
              have := List.all_eq_true.mp hall _ hmem
              simp at this
          rw [hallF]
          simp
        · have hcondF : ¬ ((decide ((trimStr s).head? = some '.') ||
              decide ((trimStr s).getLast? = some '.')) = true) := by
            simp [hhead, hlast]
          rw [if_neg hcondF]
          have hloop := parseNumDotLoop_eq (trimStr s) 0 false [] (by omega)
          simp only [hsp] at hloop
          rw [hloop]
          simp only [Bool.false_or, List.nil_append, digitsToNat, List.all_cons,
            List.map_cons]

/-- C9: `ParseNumericDottedVersion` accepts exactly the dot-delimited
decimal-component grammar (no empty components, each component within the
32-bit accumulator) and yields the component values; `CompareNumericVersions`
is the component-wise comparison with the shorter side zero-padded; and
`UpdateThreadProc` downloads the update binary exactly when the remote
version compares greater than the local, reporting `ok` with
`different = false` (no download) when it does not. -/
theorem c9_version_parse_compare :
    (∀ s : Str, parseNumericDottedVersion s = specDottedParse s) ∧
    (∀ a b : List Nat, compareNumericVersions a b = specCompareZeroPadded a b) ∧
    (∀ (env : UpdateEnv) (vtxt remoteV shaL : Str) (localParts remoteParts : List Nat),
      env.curExeOk = true →
      env.versionTxt = .ok vtxt →
      ¬ trimStr vtxt = [] →
      parseVersionTxt2Line (trimStr vtxt) = .ok (remoteV, shaL) →
      parseNumericDottedVersion (trimStr env.localVersion) = some localParts →
      parseNumericDottedVersion remoteV = some remoteParts →
      ((compareNumericVersions remoteParts localParts ≤ 0 →
        (updateThreadProc env).res.ok = true ∧
        (updateThreadProc env).res.different = false ∧
        (updateThreadProc env).downloadAttempted = false) ∧
       (0 < compareNumericVersions remoteParts localParts →
        (updateThreadProc env).res.different = true ∧
        (updateThreadProc env).downloadAttempted = true))) := by
  refine ⟨parseNumericDottedVersion_eq_spec, compareNumericVersions_eq_spec, ?_⟩
  intro env vtxt remoteV shaL localParts remoteParts h1 h2 h3 h4 h5 h6
  constructor
  · intro hle
    unfold updateThreadProc
    rw [h2]
    simp [h1, h3, h4, h5, h6, hle]
  · intro hgt
    have hnle : ¬ compareNumericVersions remoteParts localParts ≤ 0 := by omega
    unfold updateThreadProc
    rw [h2]
    cases hdl : env.exeDownloadOk with
    | false => simp [h1, h3, h4, h5, h6, hnle, hdl]
    | true =>
      cases hv : verifyDownloadedUpdateExeProduction env.verify with
      | error e => simp [h1, h3, h4, h5, h6, hnle, hdl, hv]
      | ok u => simp [h1, h3, h4, h5, h6, hnle, hdl, hv]

theorem c9_witness :
    parseNumericDottedVersion (("1.2").toList) = specDottedParse (("1.2").toList) ∧
    compareNumericVersions [1, 2] [1, 2, 0] = specCompareZeroPadded [1, 2] [1, 2, 0] ∧
    ((updateThreadProc c9DemoEnv).res.ok = true ∧
     (updateThreadProc c9DemoEnv).res.different = false ∧
     (updateThreadProc c9DemoEnv).downloadAttempted = false) :=
  ⟨c9_version_parse_compare.1 (("1.2").toList),
   c9_version_parse_compare.2.1 [1, 2] [1, 2, 0],
   (c9_version_parse_compare.2.2 c9DemoEnv
      (("1.2").toList ++ '\n' :: List.replicate 64 'a')
      (("1.2").toList) (List.replicate 64 'a') [1, 2, 0] [1, 2]
      rfl rfl (by decide) (by rfl) (by rfl) (by rfl)).1 (by decide)⟩

-- Parser drop-empty filter: entries handed to the validator ---------------

theorem condAppend_all_nonempty (entries : List ManifestRawEntry) (p h : Str)
    (hall : entries.all rawFieldsNonEmpty = true) :
    (if (decide (p ≠ []) && decide (h ≠ [])) = true then entries ++ [⟨p, h⟩]
      else entries).all rawFieldsNonEmpty = true := by
  split
  · rename_i hc
    simp only [Bool.and_eq_true, decide_eq_true_eq] at hc
    obtain ⟨h1, h2⟩ := hc
    simp only [List.all_append, hall, List.all_cons, List.all_nil, Bool.and_true,
      Bool.true_and, rawFieldsNonEmpty]
    simp [h1, h2]
  · exact hall

theorem parseFilesLoop_all_nonempty : ∀ (fuel : Nat) (s : Str)
    (entries entries2 : List ManifestRawEntry) (rest : Str),
    entries.all rawFieldsNonEmpty = true →
    parseFilesLoop fuel s entries = .ok (entries2, rest) →
    entries2.all rawFieldsNonEmpty = true
  | 0, _, _, _, _, _, h => Except.noConfusion h
  | fuel + 1, s, entries, entries2, rest, hall, h => by
    simp only [parseFilesLoop] at h
    split at h
    · exact Except.noConfusion h
    · split at h
      · split at h
        · exact Except.noConfusion h
        · split at h
          · exact Except.noConfusion h
          · exact parseFilesLoop_all_nonempty fuel _ _ entries2 rest
              (condAppend_all_nonempty entries _ _ hall) h
          · split at h
            · simp only [Except.ok.injEq, Prod.mk.injEq] at h
              obtain ⟨rfl, -⟩ := h
              exact condAppend_all_nonempty entries _ _ hall
            · exact Except.noConfusion h
      · exact Except.noConfusion h

theorem parseTopValue_all_nonempty (fuel : Nat) (key r2w : Str)
    (entries : List ManifestRawEntry) (ff : Bool)
    (e2 : List ManifestRawEntry) (ff2 : Bool) (r3 : Str)
    (hall : entries.all rawFieldsNonEmpty = true)
    (h : parseTopValue fuel key r2w entries ff = .ok (e2, ff2, r3)) :
    e2.all rawFieldsNonEmpty = true := by
  simp only [parseTopValue] at h
  split at h
  · split at h
    · split at h
      · simp only [Except.ok.injEq, Prod.mk.injEq] at h
        obtain ⟨rfl, -, -⟩ := h
        exact hall
      · split at h
        · exact Except.noConfusion h
        · rename_i hpf
          simp only [Except.ok.injEq, Prod.mk.injEq] at h
          obtain ⟨rfl, -, -⟩ := h
          exact parseFilesLoop_all_nonempty fuel _ entries _ _ hall hpf
    · exact Except.noConfusion h
  · split at h
    · exact Except.noConfusion h
    · simp only [Except.ok.injEq, Prod.mk.injEq] at h
      obtain ⟨rfl, -, -⟩ := h
      exact hall

theorem parseTopLoop_ok_nonempty : ∀ (fuel : Nat) (s : Str)
    (entries : List ManifestRawEntry) (ff : Bool)
    (entries2 : List ManifestRawEntry),
    entries.all rawFieldsNonEmpty = true →
    parseTopLoop fuel s entries ff = .ok entries2 →
    entries2 ≠ [] ∧ entries2.all rawFieldsNonEmpty = true
  | 0, _, _, _, _, _, h => Except.noConfusion h
  | fuel + 1, s, entries, ff, entries2, hall, h => by
    simp only [parseTopLoop] at h
    split at h
    · exact Except.noConfusion h
    · split at h
      · split at h
        · exact Except.noConfusion h
        · split at h
          · exact Except.noConfusion h
          · rename_i hne2
            simp only [Except.ok.injEq] at h
            obtain rfl := h
            exact ⟨hne2, hall⟩
      · split at h
        · exact Except.noConfusion h
        · split at h
          · split at h
            · exact Except.noConfusion h
            · rename_i e2 ff2 r3 hav
              have hall2 : e2.all rawFieldsNonEmpty = true :=
                parseTopValue_all_nonempty fuel _ _ entries ff e2 ff2 r3 hall hav
              split at h
              · exact Except.noConfusion h
              · exact parseTopLoop_ok_nonempty fuel _ e2 ff2 entries2 hall2 h
              · split at h
                · split at h
                  · exact Except.noConfusion h
                  · split at h
                    · exact Except.noConfusion h
                    · rename_i hne2
                      simp only [Except.ok.injEq] at h
                      obtain rfl := h
                      exact ⟨hne2, hall2⟩
                · exact Except.noConfusion h
          · exact Except.noConfusion h

theorem parseManifestRaw_ok_nonempty (jsonText : Str)
    (entries : List ManifestRawEntry) :
    parseManifestRaw jsonText = .ok entries →
    entries ≠ [] ∧ entries.all rawFieldsNonEmpty = true := by
  intro h
  simp only [parseManifestRaw] at h
  split at h
  · exact Except.noConfusion h
  · split at h
    · split at h
      · exact parseTopLoop_ok_nonempty _ _ [] false entries rfl h
      · exact Except.noConfusion h
    · exact Except.noConfusion h

theorem errBadSha_append_ne (p : Str) : errBadSha ++ p ≠ errEmptyPath := by
  intro h
  exact absurd (List.cons.inj h).1 (by decide)

theorem errUnsafePath_append_ne (x y : Str) :
    errUnsafePath ++ x ++ (" (").toList ++ y ++ (")").toList ≠ errEmptyPath := by
  intro h
  exact absurd (List.cons.inj h).1 (by decide)

theorem errDupPath_append_ne (r : Str) : errDupPath ++ r ≠ errEmptyPath := by
  intro h
  exact absurd (List.cons.inj h).1 (by decide)

theorem validateLoop_error_ne_emptyPath : ∀ (raw : List ManifestRawEntry)
    (work : List ManifestEntry) (relSet : List Str),
    (∀ rf ∈ raw, rf.path ≠ []) →
    validateLoop raw work relSet ≠ .error errEmptyPath
  | [], work, relSet, _ => by simp [validateLoop]
  | rf :: rest, work, relSet, hne => by
    have hp : rf.path ≠ [] := hne rf (List.mem_cons_self rf rest)
    intro h
    simp only [validateLoop] at h
    rw [if_neg hp] at h
    split at h
    · exact errBadSha_append_ne rf.path (by simpa using h)
    · split at h
      · exact errUnsafePath_append_ne _ rf.path (by simpa using h)
      · split at h
        · rename_i rel _ _
          exact errDupPath_append_ne rel (by simpa using h)
        · exact validateLoop_error_ne_emptyPath rest _ _
            (fun rf2 hm => hne rf2 (List.mem_cons_of_mem rf hm)) h

/-- C10: every raw entry list a successful `ParseManifestRaw` hands to the
validator is non-empty and has only entries with non-empty decoded `path` and
hash strings (entries with an empty decoded field are silently dropped), so
the validator's empty-path rejection can never fire on parser output; a
manifest whose only entry is dropped this way fails the parse with the
empty-`files` error. -/
theorem c10_parser_drops_empty_fields :
    (∀ (jsonText : Str) (entries : List ManifestRawEntry),
      parseManifestRaw jsonText = .ok entries →
      entries ≠ [] ∧ ∀ rf ∈ entries, rf.path ≠ [] ∧ rf.sha256 ≠ []) ∧
    (∀ (jsonText : Str) (entries : List ManifestRawEntry),
      parseManifestRaw jsonText = .ok entries →
      validateAndNormalizeManifest entries ≠ .error errEmptyPath) ∧
    parseManifestRaw c10DroppedJson = .error errFilesEmpty := by
  refine ⟨?_, ?_, by rfl⟩
  · intro jsonText entries hok
    obtain ⟨hne, hall⟩ := parseManifestRaw_ok_nonempty jsonText entries hok
    refine ⟨hne, fun rf hm => ?_⟩
    have := List.all_eq_true.mp hall rf hm
    simpa [rawFieldsNonEmpty] using this
  · intro jsonText entries hok hcontra
    obtain ⟨hne, hall⟩ := parseManifestRaw_ok_nonempty jsonText entries hok
    have hpaths : ∀ rf ∈ entries, rf.path ≠ [] := by
      intro rf hm
      have := List.all_eq_true.mp hall rf hm
      simp only [rawFieldsNonEmpty, Bool.and_eq_true, Bool.not_eq_true',
        decide_eq_false_iff_not] at this
      exact this.1
    simp only [validateAndNormalizeManifest] at hcontra
    rw [if_neg hne] at hcontra
    cases hvl : validateLoop entries [] [] with
    | error e =>
      rw [hvl] at hcontra
      have he : e = errEmptyPath := by simpa using hcontra
      subst he
      exact validateLoop_error_ne_emptyPath entries [] [] hpaths hvl
    | ok p =>
      simp [hvl] at hcontra

theorem c10_witness :
    (([⟨("a").toList, hash64zeros⟩] : List ManifestRawEntry) ≠ [] ∧
      ∀ rf ∈ ([⟨("a").toList, hash64zeros⟩] : List ManifestRawEntry),
        rf.path ≠ [] ∧ rf.sha256 ≠ []) ∧
    validateAndNormalizeManifest [⟨("a").toList, hash64zeros⟩] ≠
      .error errEmptyPath :=
  ⟨c10_parser_drops_empty_fields.1 c10GoodJson
      [⟨("a").toList, hash64zeros⟩] (by rfl),
   c10_parser_drops_empty_fields.2.1 c10GoodJson
      [⟨("a").toList, hash64zeros⟩] (by rfl)⟩

-- Strict path normalizer: error triggers and success shape ----------------

theorem dropLeadingSlashes_cons_slash (rest : Str) :
    dropLeadingSlashes ('/' :: rest) = dropLeadingSlashes rest := rfl

theorem dropLeadingSlashes_cons_ne (d : Char) (rest : Str) (hd : ¬ d = '/') :
    dropLeadingSlashes (d :: rest) = d :: rest := by
  rw [dropLeadingSlashes.eq_def]
  split
  · rename_i r heq
    injection heq with h1 h2
    exact absurd h1 hd
  · rfl

theorem mem_dropLeadingSlashes : ∀ (s : Str) (c : Char),
    c ∈ dropLeadingSlashes s → c ∈ s
  | [], _, h => h
  | d :: rest, c, h => by
    by_cases hd : d = '/'
    · subst hd
      rw [dropLeadingSlashes_cons_slash] at h
      exact List.mem_cons_of_mem _ (mem_dropLeadingSlashes rest c h)
    · rwa [dropLeadingSlashes_cons_ne d rest hd] at h

theorem mem_dropLeadingSlashes_of : ∀ (s : Str) (c : Char),
    c ∈ s → ¬ c = '/' → c ∈ dropLeadingSlashes s
  | [], c, h, _ => absurd h (List.not_mem_nil c)
  | d :: rest, c, h, hne => by
    by_cases hd : d = '/'
    · subst hd
      rw [dropLeadingSlashes_cons_slash]
      cases h with
      | head => exact absurd rfl hne
      | tail _ h2 => exact mem_dropLeadingSlashes_of rest c h2 hne
    · rwa [dropLeadingSlashes_cons_ne d rest hd]

theorem splitOnChar_seg_chars : ∀ (sep : Char) (s : Str) (seg : Str),
    seg ∈ splitOnChar sep s → ∀ c ∈ seg, c ∈ s ∧ ¬ c = sep
  | sep, [], seg, hseg, c, hc => by
    simp only [splitOnChar] at hseg
    have : seg = [] := by simpa using hseg
    subst this
    exact absurd hc (List.not_mem_nil c)
  | sep, d :: rest, seg, hseg, c, hc => by
    simp only [splitOnChar] at hseg
    by_cases hd : d = sep
    · rw [if_pos hd] at hseg
      cases hseg with
      | head => exact absurd hc (List.not_mem_nil c)
      | tail _ h2 =>
        obtain ⟨h3, h4⟩ := splitOnChar_seg_chars sep rest seg h2 c hc
        exact ⟨List.mem_cons_of_mem d h3, h4⟩
    · rw [if_neg hd] at hseg
      cases hs : splitOnChar sep rest with
      | nil => exact absurd hs (splitOnChar_ne_nil sep rest)
      | cons g gs =>
        rw [hs] at hseg
        cases hseg with
        | head =>
          cases hc with
          | head => exact ⟨List.mem_cons_self _ _, hd⟩
          | tail _ hc2 =>
            obtain ⟨h3, h4⟩ := splitOnChar_seg_chars sep rest g
              (hs ▸ List.mem_cons_self g gs) c hc2
            exact ⟨List.mem_cons_of_mem d h3, h4⟩
        | tail _ hseg2 =>
          obtain ⟨h3, h4⟩ := splitOnChar_seg_chars sep rest seg
            (hs ▸ List.mem_cons_of_mem g hseg2) c hc
          exact ⟨List.mem_cons_of_mem d h3, h4⟩

theorem splitOnChar_mem_char : ∀ (sep : Char) (s : Str) (c : Char),
    c ∈ s → ¬ c = sep → ∃ seg ∈ splitOnChar sep s, c ∈ seg
  | _, [], c, h, _ => absurd h (List.not_mem_nil c)
  | sep, d :: rest, c, h, hne => by
    simp only [splitOnChar]
    by_cases hd : d = sep
    · rw [if_pos hd]
      cases h with
      | head => exact absurd hd hne
      | tail _ h2 =>
        obtain ⟨seg, hseg, hcs⟩ := splitOnChar_mem_char sep rest c h2 hne
        exact ⟨seg, List.mem_cons_of_mem [] hseg, hcs⟩
    · rw [if_neg hd]
      cases hs : splitOnChar sep rest with
      | nil => exact absurd hs (splitOnChar_ne_nil sep rest)
      | cons g gs =>
        cases h with
        | head => exact ⟨d :: g, List.mem_cons_self _ _, List.mem_cons_self d g⟩
        | tail _ h2 =>
          obtain ⟨seg, hseg, hcs⟩ := splitOnChar_mem_char sep rest c h2 hne
          rw [hs] at hseg
          cases hseg with
          | head => exact ⟨d :: g, List.mem_cons_self _ _, List.mem_cons_of_mem d hcs⟩
          | tail _ hseg2 => exact ⟨seg, List.mem_cons_of_mem (d :: g) hseg2, hcs⟩

theorem map_bsToSlash_no_bs (p : Str) (c : Char) (hc : c ∈ p.map bsToSlash) :
    ¬ c = '\\' := by
  obtain ⟨d, hd, rfl⟩ := List.mem_map.mp hc
  by_cases hdb : d = '\\' <;> simp [bsToSlash, hdb]

theorem map_bsToSlash_nul (p : Str) (c : Char) (hc : c ∈ p.map bsToSlash)
    (hnul : nulChar ∉ p) : ¬ c = nulChar := by
  obtain ⟨d, hd, rfl⟩ := List.mem_map.mp hc
  by_cases hdb : d = '\\'
  · simp [bsToSlash, hdb]
    decide
  · simp only [bsToSlash, hdb, if_false]
    intro hdn
    exact hnul (hdn ▸ hd)

theorem strict_seg_chars (p : Str) (hnul : ¬ nulChar ∈ p) :
    ∀ q ∈ splitOnChar '/' (dropLeadingSlashes (p.map bsToSlash)),
      ¬ '/' ∈ q ∧ ¬ '\\' ∈ q ∧ ¬ nulChar ∈ q := by
  intro q hq
  refine ⟨?_, ?_, ?_⟩ <;> intro hc
  · exact (splitOnChar_seg_chars '/' _ q hq '/' hc).2 rfl
  · have hin := (splitOnChar_seg_chars '/' _ q hq '\\' hc).1
    exact map_bsToSlash_no_bs p '\\' (mem_dropLeadingSlashes _ _ hin) rfl
  · have hin := (splitOnChar_seg_chars '/' _ q hq nulChar hc).1
    exact map_bsToSlash_nul p nulChar (mem_dropLeadingSlashes _ _ hin) hnul rfl

theorem goodSeg_intro (q : Str) (h1 : ¬ q = []) (h2 : ¬ q = ['.'])
    (h3 : ¬ q = ['.', '.']) (h4 : ¬ ':' ∈ q) (h5 : ¬ '/' ∈ q)
    (h6 : ¬ '\\' ∈ q) (h7 : ¬ nulChar ∈ q) : goodSeg q = true := by
  simp [goodSeg, h1, h2, h3, h4, h5, h6, h7]

theorem goodSeg_elim (q : Str) (h : goodSeg q = true) : q ≠ [] ∧ '/' ∉ q := by
  simp only [goodSeg, Bool.and_eq_true, Bool.not_eq_true',
    decide_eq_false_iff_not] at h
  obtain ⟨⟨⟨⟨⟨⟨h1, h2⟩, h3⟩, h4⟩, h5⟩, h6⟩, h7⟩ := h
  exact ⟨h1, by simpa using h4⟩

theorem strictResolve_good : ∀ (segs parts : List Str) (parts0 : List Str),
    (∀ q ∈ parts, goodSeg q = true) →
    (∀ q ∈ segs, ¬ '/' ∈ q ∧ ¬ '\\' ∈ q ∧ ¬ nulChar ∈ q) →
    strictResolve segs parts = .ok parts0 →
    ∀ q ∈ parts0, goodSeg q = true
  | [], parts, parts0, hp, _, h => by
    simp only [strictResolve, Except.ok.injEq] at h
    exact h ▸ hp
  | seg :: rest, parts, parts0, hp, hsegs, h => by
    simp only [strictResolve] at h
    split at h
    · exact strictResolve_good rest parts parts0 hp
        (fun q hq => hsegs q (List.mem_cons_of_mem seg hq)) h
    · split at h
      · split at h
        · exact Except.noConfusion h
        · refine strictResolve_good rest parts.dropLast parts0 ?_
            (fun q hq => hsegs q (List.mem_cons_of_mem seg hq)) h
          intro q hq
          exact hp q ((List.dropLast_sublist parts).subset hq)
      · split at h
        · exact Except.noConfusion h
        · rename_i hne hndd hncol
          refine strictResolve_good rest (parts ++ [seg]) parts0 ?_
            (fun q hq => hsegs q (List.mem_cons_of_mem seg hq)) h
          intro q hq
          rcases List.mem_append.mp hq with hq1 | hq2
          · exact hp q hq1
          · have hqs : q = seg := by simpa using hq2
            subst hqs
            obtain ⟨hc1, hc2, hc3⟩ := hsegs q (List.mem_cons_self _ _)
            have hne2 : ¬ q = [] ∧ ¬ q = ['.'] := by simpa using hne
            have hcol2 : ¬ ':' ∈ q := by simpa using hncol
            exact goodSeg_intro q hne2.1 hne2.2 hndd hcol2 hc1 hc2 hc3

theorem strictResolve_colon_err : ∀ (segs parts : List Str),
    (∃ seg ∈ segs, ':' ∈ seg) →
    ∃ e, strictResolve segs parts = .error e
  | [], _, hw => by
    obtain ⟨seg, hseg, -⟩ := hw
    exact absurd hseg (List.not_mem_nil seg)
  | seg :: rest, parts, hw => by
    obtain ⟨seg0, hseg0, hcol⟩ := hw
    simp only [strictResolve]
    split
    · rename_i hc1
      have hc1' : seg = [] ∨ seg = ['.'] := by simpa using hc1
      refine strictResolve_colon_err rest parts ⟨seg0, ?_, hcol⟩
      cases hseg0 with
      | head =>
        rcases hc1' with h | h <;> rw [h] at hcol <;> simp at hcol
      | tail _ h2 => exact h2
    · split
      · rename_i hdd
        have hseg0r : seg0 ∈ rest := by
          cases hseg0 with
          | head => rw [hdd] at hcol; simp at hcol
          | tail _ h2 => exact h2
        split
        · exact ⟨errEscape, rfl⟩
        · exact strictResolve_colon_err rest parts.dropLast ⟨seg0, hseg0r, hcol⟩
      · split
        · exact ⟨errColonSeg, rfl⟩
        · rename_i hncol
          have hseg0r : seg0 ∈ rest := by
            cases hseg0 with
            | head => exact absurd (by simpa using hcol) hncol
            | tail _ h2 => exact h2
          exact strictResolve_colon_err rest (parts ++ [seg]) ⟨seg0, hseg0r, hcol⟩

theorem strictResolve_escape_err : ∀ (segs parts : List Str),
    escapesRootSegs segs parts.length = true →
    ∃ e, strictResolve segs parts = .error e
  | [], parts, h => by simp [escapesRootSegs] at h
  | seg :: rest, parts, h => by
    simp only [escapesRootSegs] at h
    simp only [strictResolve]
    split at h
    · rename_i hc1
      rw [if_pos hc1]
      exact strictResolve_escape_err rest parts h
    · rename_i hc1
      rw [if_neg hc1]
      split at h
      · rename_i hdd
        rw [if_pos hdd]
        by_cases hp : parts = []
        · rw [if_pos hp]
          exact ⟨errEscape, rfl⟩
        · rw [if_neg hp]
          have hlen : ¬ parts.length = 0 := by
            intro h0
            exact hp (List.length_eq_zero.mp h0)
          rw [if_neg hlen] at h
          refine strictResolve_escape_err rest parts.dropLast ?_
          rw [List.length_dropLast]
          exact h
      · rename_i hdd
        rw [if_neg hdd]
        split
        · exact ⟨errColonSeg, rfl⟩
        · refine strictResolve_escape_err rest (parts ++ [seg]) ?_
          have : (parts ++ [seg]).length = parts.length + 1 := by simp
          rw [this]
          exact h

theorem mem_of_startsWith : ∀ (s t : Str), startsWith s t = true → ∀ c ∈ t, c ∈ s
  | _, [], _, c, hc => absurd hc (List.not_mem_nil c)
  | [], d :: t, h, c, hc => by simp [startsWith] at h
  | a :: s, d :: t, h, c, hc => by
    simp only [startsWith, Bool.and_eq_true, decide_eq_true_eq] at h
    obtain ⟨had, h2⟩ := h
    cases hc with
    | head => exact had ▸ List.mem_cons_self a s
    | tail _ hc2 => exact List.mem_cons_of_mem a (mem_of_startsWith s t h2 c hc2)

theorem startsWith_sep_align : ∀ (p x t1 t2 : Str), '/' ∉ p → '/' ∉ x →
    startsWith (p ++ '/' :: t1) (x ++ '/' :: t2) = true →
    p = x ∧ startsWith t1 t2 = true
  | [], [], t1, t2, _, _, h => by
    simp only [List.nil_append, startsWith, Bool.and_eq_true, decide_eq_true_eq] at h
    exact ⟨rfl, h.2⟩
  | [], d :: x, t1, t2, _, hx, h => by
    simp only [List.nil_append, List.cons_append, startsWith, Bool.and_eq_true,
      decide_eq_true_eq] at h
    exact absurd (h.1 ▸ List.mem_cons_self d x) hx
  | c :: p, [], t1, t2, hp, _, h => by
    simp only [List.cons_append, List.nil_append, startsWith, Bool.and_eq_true,
      decide_eq_true_eq] at h
    exact absurd (h.1 ▸ List.mem_cons_self c p) hp
  | c :: p, d :: x, t1, t2, hp, hx, h => by
    simp only [List.cons_append, startsWith, Bool.and_eq_true, decide_eq_true_eq] at h
    obtain ⟨hcd, h2⟩ := h
    obtain ⟨hpx, h3⟩ := startsWith_sep_align p x t1 t2
      (fun hm => hp (List.mem_cons_of_mem c hm))
      (fun hm => hx (List.mem_cons_of_mem d hm)) h2
    exact ⟨by rw [hcd, hpx], h3⟩

theorem joinParts_cons (p : Str) (ps : List Str) (hps : ps ≠ []) :
    joinParts (p :: ps) = p ++ '/' :: joinParts ps := by
  cases ps with
  | nil => exact absurd rfl hps
  | cons q qs => rfl

theorem joinParts_prefix_align : ∀ (parts : List Str) (x z : Str),
    '/' ∉ x → (∀ q ∈ parts, q ≠ [] ∧ '/' ∉ q) →
    startsWith (joinParts parts) (x ++ '/' :: z) = true →
    ∃ rest, parts = x :: rest ∧ rest ≠ [] ∧ startsWith (joinParts rest) z = true
  | [], x, z, _, _, h => by
    cases hx : x with
    | nil => simp [hx, joinParts, startsWith] at h
    | cons c t => simp [hx, joinParts, startsWith] at h
  | [p], x, z, _, hparts, h => by
    have hpne := hparts p (List.mem_cons_self p [])
    have hmem := mem_of_startsWith (joinParts [p]) (x ++ '/' :: z) h '/'
      (List.mem_append_right x (List.mem_cons_self '/' z))
    exact absurd hmem hpne.2
  | p :: q :: ps, x, z, hx, hparts, h => by
    have hp := hparts p (List.mem_cons_self _ _)
    rw [joinParts_cons p (q :: ps) (by simp)] at h
    obtain ⟨rfl, h2⟩ := startsWith_sep_align p x (joinParts (q :: ps)) z hp.2 hx h
    exact ⟨q :: ps, rfl, by simp, h2⟩

theorem normalizeStrict_ok_parts (p rel : Str)
    (h : normalizeManifestRelStrict p = .ok rel) :
    rel ≠ [] ∧ ∃ parts, parts ≠ [] ∧ parts.all goodSeg = true ∧
      rel = joinParts parts := by
  simp only [normalizeManifestRelStrict] at h
  split at h
  · exact Except.noConfusion h
  · split at h
    · exact Except.noConfusion h
    · split at h
      · exact Except.noConfusion h
      · rename_i hnul hunc hdrv
        split at h
        · exact Except.noConfusion h
        · rename_i parts0 hres
          split at h
          · exact Except.noConfusion h
          · split at h
            · exact Except.noConfusion h
            · rename_i hrelne hnodd
              simp only [Except.ok.injEq] at h
              subst h
              have hnul2 : ¬ nulChar ∈ p := by
                intro hm
                exact hnul (by simpa using hm)
              have hgood : ∀ q ∈ parts0, goodSeg q = true :=
                strictResolve_good _ [] parts0 (by simp)
                  (strict_seg_chars p hnul2) hres
              have hpairs : ∀ q ∈ parts0, q ≠ [] ∧ '/' ∉ q :=
                fun q hq => goodSeg_elim q (hgood q hq)
              refine ⟨hrelne, ?_⟩
              simp only [stripKnownStrict] at hrelne ⊢
              by_cases h1 : startsWith (joinParts parts0) pfxOverrideMappack = true
              · rw [if_pos h1]
                have h1' : startsWith (joinParts parts0)
                    (("resources_override").toList ++ '/' ::
                      (("mappack").toList ++ '/' :: [])) = true := h1
                obtain ⟨rest1, hp0, hrest1ne, hsw1⟩ :=
                  joinParts_prefix_align parts0 (("resources_override").toList)
                    (("mappack").toList ++ '/' :: []) (by decide) hpairs h1'
                obtain ⟨rest2, hp1, hrest2ne, -⟩ :=
                  joinParts_prefix_align rest1 (("mappack").toList) []
                    (by decide)
                    (fun q hq => hpairs q (hp0 ▸ List.mem_cons_of_mem _ hq)) hsw1
                refine ⟨rest2, hrest2ne, ?_, ?_⟩
                · refine List.all_eq_true.mpr fun q hq => hgood q ?_
                  rw [hp0, hp1]
                  exact List.mem_cons_of_mem _ (List.mem_cons_of_mem _ hq)
                · rw [hp0, hp1, joinParts_cons _ _ (by simp),
                    joinParts_cons _ _ hrest2ne]
                  have hl : pfxOverrideMappack.length =
                      (("resources_override").toList).length + 9 := by decide
                  rw [hl, List.drop_append 9, List.drop_succ_cons]
                  have hl2 : (8 : Nat) = (("mappack").toList).length + 1 := by decide
                  rw [hl2, List.drop_append 1, List.drop_succ_cons, List.drop_zero]
              · rw [if_neg h1]
                by_cases h2 : startsWith (joinParts parts0) pfxOverride = true
                · rw [if_pos h2]
                  have h2' : startsWith (joinParts parts0)
                      (("resources_override").toList ++ '/' :: []) = true := h2
                  obtain ⟨rest1, hp0, hrest1ne, -⟩ :=
                    joinParts_prefix_align parts0 (("resources_override").toList)
                      [] (by decide) hpairs h2'
                  refine ⟨rest1, hrest1ne, ?_, ?_⟩
                  · refine List.all_eq_true.mpr fun q hq => hgood q ?_
                    rw [hp0]
                    exact List.mem_cons_of_mem _ hq
                  · rw [hp0, joinParts_cons _ _ hrest1ne]
                    have hl : pfxOverride.length =
                        (("resources_override").toList).length + 1 := by decide
                    rw [hl, List.drop_append 1, List.drop_succ_cons, List.drop_zero]
                · rw [if_neg h2]
                  by_cases h3 : startsWith (joinParts parts0) pfxMappack = true
                  · rw [if_pos h3]
                    have h3' : startsWith (joinParts parts0)
                        (("mappack").toList ++ '/' :: []) = true := h3
                    obtain ⟨rest1, hp0, hrest1ne, -⟩ :=
                      joinParts_prefix_align parts0 (("mappack").toList)
                        [] (by decide) hpairs h3'
                    refine ⟨rest1, hrest1ne, ?_, ?_⟩
                    · refine List.all_eq_true.mpr fun q hq => hgood q ?_
                      rw [hp0]
                      exact List.mem_cons_of_mem _ hq
                    · rw [hp0, joinParts_cons _ _ hrest1ne]
                      have hl : pfxMappack.length =
                          (("mappack").toList).length + 1 := by decide
                      rw [hl, List.drop_append 1, List.drop_succ_cons, List.drop_zero]
                  · rw [if_neg h3]
                    rw [if_neg h1, if_neg h2, if_neg h3] at hrelne
                    have hp0ne : parts0 ≠ [] := by
                      intro h0
                      rw [h0] at hrelne
                      exact hrelne rfl
                    refine ⟨parts0, hp0ne, List.all_eq_true.mpr hgood, rfl⟩

/-- C2: the strict path normalizer (`NormalizeManifestRelStrict`) rejects,
for its own input string, embedded NUL, UNC-style doubled-slash prefixes,
drive-letter qualification, any ':' character, and any `..` segment popping
past the first remaining segment, and on success returns a non-empty
forward-slash relative path whose segments are non-empty, free of
separators, colons and NUL, and contain no `.` or `..`.  (The manifest
validator, however, applies it to the output of `NormalizePathGeneric`,
which has already clamped escaping `..` segments at the root — see the
counterexample.) -/
theorem c2_strict_normalizer (p : Str) :
    (p.contains nulChar = true → normalizeManifestRelStrict p = .error errNul) ∧
    (p.contains nulChar = false → isUncStart p = true →
      normalizeManifestRelStrict p = .error errUnc) ∧
    (p.contains nulChar = false → isUncStart p = false → isDriveQualified p = true →
      normalizeManifestRelStrict p = .error errDrive) ∧
    (p.contains ':' = true → exceptIsOk (normalizeManifestRelStrict p) = false) ∧
    (hasEscapingDotDot p = true → exceptIsOk (normalizeManifestRelStrict p) = false) ∧
    (∀ rel, normalizeManifestRelStrict p = .ok rel →
      rel ≠ [] ∧ ∃ parts, parts ≠ [] ∧ parts.all goodSeg = true ∧
        rel = joinParts parts) := by
  refine ⟨?_, ?_, ?_, ?_, ?_, fun rel h => normalizeStrict_ok_parts p rel h⟩
  · intro hnul
    unfold normalizeManifestRelStrict
    rw [if_pos hnul]
  · intro hnul hunc
    unfold normalizeManifestRelStrict
    rw [if_neg (by rw [hnul]; simp), if_pos hunc]
  · intro hnul hunc hdrv
    unfold normalizeManifestRelStrict
    rw [if_neg (by rw [hnul]; simp), if_neg (by simp [hunc]), if_pos hdrv]
  · intro hcol
    simp only [normalizeManifestRelStrict]
    split
    · rfl
    · split
      · rfl
      · split
        · rfl
        · have hmem : (':' : Char) ∈ p := by simpa using hcol
          have hmem2 : (':' : Char) ∈ p.map bsToSlash :=
            List.mem_map.mpr ⟨':', hmem, rfl⟩
          have hmem3 := mem_dropLeadingSlashes_of _ _ hmem2 (by decide)
          obtain ⟨seg, hseg, hcseg⟩ := splitOnChar_mem_char '/' _ ':' hmem3 (by decide)
          obtain ⟨e, he⟩ := strictResolve_colon_err _ [] ⟨seg, hseg, hcseg⟩
          simp [he, exceptIsOk]
  · intro hesc
    simp only [normalizeManifestRelStrict]
    split
    · rfl
    · split
      · rfl
      · split
        · rfl
        · have hesc2 : escapesRootSegs
              (splitOnChar '/' (dropLeadingSlashes (p.map bsToSlash)))
              ([] : List Str).length = true := by
            simpa [hasEscapingDotDot] using hesc
          obtain ⟨e, he⟩ := strictResolve_escape_err _ [] hesc2
          simp [he, exceptIsOk]

theorem c2_witness :
    exceptIsOk (normalizeManifestRelStrict (("sub/../../out").toList)) = false :=
  (c2_strict_normalizer (("sub/../../out").toList)).2.2.2.2.1 (by decide)

theorem c2_counterexample :
    hasEscapingDotDot c2RawPath = true ∧
    normalizeManifestRelStrict c2RawPath = .error errEscape ∧
    validateAndNormalizeManifest [⟨c2RawPath, hash64zeros⟩] =
      .ok ([⟨("evil").toList, ("evil").toList, hash64zeros⟩], [("evil").toList]) := by
  refine ⟨by decide, by rfl, by rfl⟩

end MapPackSync
